import Mathlib

/-!
Verification of the HiBid scraper crawl engine (`hibid_scraper/scraper.py`).

The embedding models JSON values as produced by `json.loads`, Python dicts as
ordered association lists, and the crawl loops (`_fetch_page`,
`_extract_apollo_state`, `_extract_lots_from_apollo`, `_get_item_id`,
`_enrich_lot_data`, `scrape_category`, `scrape_all`) as pure state-passing
functions.  Network and HTML parsing are abstracted to the outcomes the code
distinguishes; everything downstream of those outcomes follows the source.
-/

namespace Hibid

/-- JSON values as produced by `json.loads`.  Numbers are modelled as integers:
the fields the engine inspects (identifiers, type tags, references) are strings
or integers in the source data. -/
inductive JVal where
  | null
  | bool (b : Bool)
  | num (n : Int)
  | str (s : String)
  | arr (elems : List JVal)
  | obj (fields : List (String × JVal))

/-- `d.get(k)` on a JSON-object field list (JSON objects have distinct keys,
so first-match lookup is dict lookup). -/
def dget : List (String × JVal) → String → Option JVal
  | [], _ => none
  | (k, v) :: rest, k0 => if k = k0 then some v else dget rest k0

/-- Python truthiness of a JSON value. -/
def pyTruthy : JVal → Bool
  | .null => false
  | .bool b => b
  | .num n => decide (n ≠ 0)
  | .str s => decide (s ≠ "")
  | .arr xs => !xs.isEmpty
  | .obj fs => !fs.isEmpty

/-- `s.startswith(pre)` (on character lists, so that proofs can evaluate it).
-/
def strStartsWith (s pre : String) : Bool :=
  pre.data.isPrefixOf s.data

/-- Replace every occurrence of `pat` in `s`, left to right — Python
`s.replace(pat, rep)` for a non-empty pattern.  Structural recursion on a
fuel that bounds the length of `s` (every step consumes at least one
character, so the `0` case with a non-empty list is never reached when the
fuel starts at the length). -/
def replaceAll (pat rep : List Char) : Nat → List Char → List Char
  | _, [] => []
  | 0, s => s
  | fuel + 1, c :: rest =>
    if pat ≠ [] ∧ pat.isPrefixOf (c :: rest) then
      rep ++ replaceAll pat rep fuel ((c :: rest).drop pat.length)
    else c :: replaceAll pat rep fuel rest

def strReplace (s pat rep : String) : String :=
  ⟨replaceAll pat.data rep.data s.data.length s.data⟩

mutual
/-- Python `repr` of a JSON value (used by `str` on containers). -/
def pyRepr : JVal → String
  | .null => "None"
  | .bool b => if b then "True" else "False"
  | .num n => toString n
  | .str s => "\x27" ++ s ++ "\x27"
  | .arr xs => "[" ++ String.intercalate ", " (pyReprList xs) ++ "]"
  | .obj fs => "\x7b" ++ String.intercalate ", " (pyReprFields fs) ++ "\x7d"

def pyReprList : List JVal → List String
  | [] => []
  | x :: xs => pyRepr x :: pyReprList xs

def pyReprFields : List (String × JVal) → List String
  | [] => []
  | (k, v) :: fs => ("\x27" ++ k ++ "\x27: " ++ pyRepr v) :: pyReprFields fs
end

/-- Python `str()` of a JSON value (as used by `str(item[field])` and
f-string interpolation). -/
def pyStr : JVal → String
  | .str s => s
  | v => pyRepr v

/-- One lot / auction / cache-entity record: an ordered Python dict. -/
abbrev LotRec := List (String × JVal)

/-- Overwrite the value stored under `k` in place. -/
def replaceKey : LotRec → String → JVal → LotRec
  | [], _, _ => []
  | (k1, v1) :: rest, k, v =>
    if k1 = k then (k, v) :: replaceKey rest k v
    else (k1, v1) :: replaceKey rest k v

/-- Python dict assignment `d[k] = v`: overwrite in place when the key exists,
append otherwise. -/
def pySet (m : LotRec) (k : String) (v : JVal) : LotRec :=
  if m.any (fun kv => kv.1 = k) then replaceKey m k v
  else m ++ [(k, v)]

/-- Python `d.pop(k)` (the removal part; keys are distinct). -/
def pyPop (m : LotRec) (k : String) : LotRec :=
  m.filter (fun kv => kv.1 ≠ k)

/-- `value.get("__typename") == t` (true only when the field holds that exact
string). -/
def typenameIs (fields : LotRec) (t : String) : Bool :=
  match dget fields "__typename" with
  | some (.str s) => s = t
  | _ => false

/-! ## `_get_item_id` -/

/-- The candidate identifier fields, in priority order. -/
def idFields : List String := ["id", "itemId", "eventItemId"]

/-- The `for field in [...]` loop of `_get_item_id`:
`if field in item and item[field]: return str(item[field])`. -/
def getItemIdLoop (item : LotRec) : List String → Option String
  | [] => none
  | f :: rest =>
    match dget item f with
    | some v => if pyTruthy v then some (pyStr v) else getItemIdLoop item rest
    | none => getItemIdLoop item rest

/-- `_get_item_id`: priority fields, then the `lot-<id>` fallback for
`__typename == "Lot"` records carrying an `id` key, else `None`. -/
def getItemId (item : LotRec) : Option String :=
  match getItemIdLoop item idFields with
  | some s => some s
  | none =>
    if typenameIs item "Lot" then
      match dget item "id" with
      | some v => some ("lot-" ++ pyStr v)
      | none => none
    else none

/-! ## `_extract_lots_from_apollo` -/

/-- Python dict insertion for the `auctions` index (the index is only looked
up, never iterated, so prepend + first-match lookup realizes last-write-wins).
-/
def dinsert (m : List (String × JVal)) (k : String) (v : JVal) :
    List (String × JVal) :=
  (k, v) :: m

/-- First pass of `_extract_lots_from_apollo`: collect auctions under both
their raw key and the normalized `Auction:<id>` key. -/
def auctionsStep (m : List (String × JVal)) (kv : String × JVal) :
    List (String × JVal) :=
  match kv with
  | (key, value) =>
    match value with
    | .obj fields =>
      if typenameIs fields "Auction" || strStartsWith key "Auction:" then
        let auctionId : String :=
          if strStartsWith key "Auction:" then strReplace key "Auction:" ""
          else pyStr ((dget fields "id").getD .null)
        dinsert (dinsert m key value) ("Auction:" ++ auctionId) value
      else m
    | _ => m

def buildAuctions (apolloState : List (String × JVal)) : List (String × JVal) :=
  apolloState.foldl auctionsStep []

/-- `ref_key in index` / `index[ref_key]` where the index is string-keyed:
only a string reference key can be present.  (An unhashable reference value
would raise in Python; reference values in the cache are strings.) -/
def refLookup (index : List (String × JVal)) (refKey : JVal) : Option JVal :=
  match refKey with
  | .str s => dget index s
  | _ => none

/-- `auction_ref = lot.get("auction", \x7b\x7d)`; attach the resolved auction
when the reference is a dict with a `__ref` present in the index. -/
def resolveAuctionRef (auctions : List (String × JVal)) (lot : LotRec) :
    LotRec :=
  match (dget lot "auction").getD (.obj []) with
  | .obj aref =>
    match dget aref "__ref" with
    | some refKey =>
      match refLookup auctions refKey with
      | some a => pySet lot "_resolved_auction" a
      | none => lot
    | none => lot
  | _ => lot

/-- Same for `lotState`, resolved against the whole cache. -/
def resolveLotStateRef (apolloState : List (String × JVal)) (lot : LotRec) :
    LotRec :=
  match (dget lot "lotState").getD (.obj []) with
  | .obj sref =>
    match dget sref "__ref" with
    | some refKey =>
      match refLookup apolloState refKey with
      | some s => pySet lot "_resolved_lotState" s
      | none => lot
    | none => lot
  | _ => lot

/-- The per-lot body of the second pass: copy the record and attach
`_resolved_auction` / `_resolved_lotState` when the references resolve. -/
def processLot (auctions apolloState : List (String × JVal)) (fields : LotRec) :
    LotRec :=
  resolveLotStateRef apolloState (resolveAuctionRef auctions fields)

/-- An entity is collected as a Lot iff it is a dict tagged `"Lot"` or keyed
`Lot:...`. -/
def isLotEntry (key : String) (value : JVal) : Bool :=
  match value with
  | .obj fields => typenameIs fields "Lot" || strStartsWith key "Lot:"
  | _ => false

/-- Second pass of `_extract_lots_from_apollo`. -/
def collectLots (auctions apolloState : List (String × JVal)) :
    List (String × JVal) → List LotRec
  | [] => []
  | (key, value) :: rest =>
    match value with
    | .obj fields =>
      if typenameIs fields "Lot" || strStartsWith key "Lot:" then
        processLot auctions apolloState fields ::
          collectLots auctions apolloState rest
      else collectLots auctions apolloState rest
    | _ => collectLots auctions apolloState rest

def extractLotsFromApollo (apolloState : List (String × JVal)) : List LotRec :=
  collectLots (buildAuctions apolloState) apolloState apolloState

/-! ## `_enrich_lot_data` -/

/-- `if "_resolved_auction" in enriched: enriched["auction_data"] =
enriched.pop("_resolved_auction")`. -/
def moveResolvedAuction (m : LotRec) : LotRec :=
  match dget m "_resolved_auction" with
  | some a => pySet (pyPop m "_resolved_auction") "auction_data" a
  | none => m

/-- `if "_resolved_lotState" in enriched: enriched["lot_state_data"] =
enriched.pop("_resolved_lotState")`. -/
def moveResolvedLotState (m : LotRec) : LotRec :=
  match dget m "_resolved_lotState" with
  | some s => pySet (pyPop m "_resolved_lotState") "lot_state_data" s
  | none => m

/-- `if "auction" in enriched and isinstance(..., dict) and "__ref" in ...:
enriched["auction_ref"] = enriched.pop("auction")["__ref"]`. -/
def moveAuctionRef (m : LotRec) : LotRec :=
  match dget m "auction" with
  | some (.obj a) =>
    match dget a "__ref" with
    | some r => pySet (pyPop m "auction") "auction_ref" r
    | none => m
  | _ => m

/-- Same for `lotState` → `lot_state_ref`. -/
def moveLotStateRef (m : LotRec) : LotRec :=
  match dget m "lotState" with
  | some (.obj s) =>
    match dget s "__ref" with
    | some r => pySet (pyPop m "lotState") "lot_state_ref" r
    | none => m
  | _ => m

def enrichLotData (lot : LotRec) : LotRec :=
  moveLotStateRef (moveAuctionRef (moveResolvedLotState (moveResolvedAuction lot)))

/-- The resolver as the claims see it: extraction followed by per-record
enrichment. -/
def resolveLots (apolloState : List (String × JVal)) : List LotRec :=
  (extractLotsFromApollo apolloState).map enrichLotData

/-! ## `_fetch_page` and `_extract_apollo_state` -/

/-- The content of a fetched page, as far as extraction distinguishes it. -/
inductive Html where
  /-- `response.text` was falsy (empty document). -/
  | emptyDoc
  /-- no `<script id="hibid-state">` element, or one with empty body. -/
  | noStateScript
  /-- the script body fails `json.loads` (`JSONDecodeError`). -/
  | malformedJson
  /-- the script body parses to `v`. -/
  | stateJson (v : JVal)

/-- `if not html:` on the fetched text. -/
def htmlTruthy : Html → Bool
  | .emptyDoc => false
  | _ => true

/-- `_extract_apollo_state html`, returning the result together with the
increment it applies to `stats.errors`.  A missing script returns `None`
without an error; a `JSONDecodeError` and any other exception (`state_data`
not being a dict makes `.get` raise) count one error; otherwise the value of
`state_data.get("apollo.state", \x7b\x7d)` is returned. -/
def extractApolloState : Html → Option JVal × Nat
  | .emptyDoc => (none, 0)
  | .noStateScript => (none, 0)
  | .malformedJson => (none, 1)
  | .stateJson v =>
    match v with
    | .obj fields => (some ((dget fields "apollo.state").getD (.obj [])), 0)
    | _ => (none, 1)

/-- Outcome of one HTTP attempt inside `_fetch_page`: the response text, or a
`requests.RequestException`. -/
def AttemptOutcomes := Nat → Option Html

/-- Result of `_fetch_page`: the returned value, the increment to
`stats.errors`, the backoff sleeps performed (seconds), and the number of
attempts made. -/
structure FetchResult where
  result : Option Html
  errors : Nat
  sleeps : List Nat
  attemptsUsed : Nat

/-- The `for attempt in range(retries)` loop of `_fetch_page`: return the text
on success; on failure sleep `(attempt + 1) * 5` and retry unless this was the
final attempt, in which case count one error and return `None`. -/
def fetchPageLoop (f : AttemptOutcomes) (retries : Nat) : List Nat → FetchResult
  | [] => ⟨none, 0, [], 0⟩
  | a :: rest =>
    match f a with
    | some h => ⟨some h, 0, [], 1⟩
    | none =>
      if a < retries - 1 then
        let r := fetchPageLoop f retries rest
        ⟨r.result, r.errors, (a + 1) * 5 :: r.sleeps, r.attemptsUsed + 1⟩
      else ⟨none, 1, [], 1⟩

/-- `_fetch_page` with its default `retries=3`. -/
def fetchPage (f : AttemptOutcomes) (retries : Nat) : FetchResult :=
  fetchPageLoop f retries (List.range retries)

/-! ## `scrape_category` -/

/-- What a `_fetch_page` call delivers to the category loop. -/
inductive FetchOutcome where
  /-- retries exhausted: `_fetch_page` returned `None` (and counted one
  error). -/
  | fail
  /-- `_fetch_page` returned this text. -/
  | page (h : Html)

/-- `ITEMS_PER_PAGE` from the source. -/
def ITEMS_PER_PAGE : Nat := 100

/-- Observable events of a session: page fetches and the randomized
`random.uniform(request_delay_min, request_delay_max)` sleeps of `_delay`. -/
inductive Ev where
  | fetch
  | delay
deriving DecidableEq, Repr

/-- State of one `scrape_category` run.  `seen`/`total` are the loop locals
`seen_ids`/`total_items`; `itemsFound`/`errors`/`pagesScraped` mirror
`self.stats`; `emitted` collects the yielded `(item_id, enriched_lot)` pairs;
`fetchCount`, `trace` and `processedLots` record the observable history
(fetches issued, delay events, raw lots of each processed page); `crashed` marks
an uncaught exception (a truthy non-dict `apollo.state`). -/
structure CatState where
  seen : List String
  total : Nat
  itemsFound : Nat
  errors : Nat
  pagesScraped : Nat
  fetchCount : Nat
  emitted : List (String × LotRec)
  processedLots : List LotRec
  trace : List Ev
  crashed : Bool

def CatState.init : CatState := ⟨[], 0, 0, 0, 0, 0, [], [], [], false⟩

/-- `test_limit = config.test_limit if config.test_mode else float("inf")`;
the loop guard is `total_items < test_limit`. -/
def limitReached (limit : Option Nat) (total : Nat) : Bool :=
  match limit with
  | none => false
  | some l => l ≤ total

/-- The duplicate filter building `new_lots`:
`if item_id and item_id not in seen_ids`. -/
def dedupNew (seen : List String) :
    List LotRec → List LotRec × List String
  | [] => ([], seen)
  | lot :: rest =>
    match getItemId lot with
    | some iid =>
      if iid = "" then dedupNew seen rest
      else if iid ∈ seen then dedupNew seen rest
      else
        (lot :: (dedupNew (iid :: seen) rest).1,
          (dedupNew (iid :: seen) rest).2)
    | none => dedupNew seen rest

/-- The `for lot in new_lots` emission loop.  Returns the updated state and
whether the `return` on reaching the test limit fired.  The `else` branch
counting an error for an id-less lot is embedded as in the source. -/
def emitLots (limit : Option Nat) : CatState → List LotRec → CatState × Bool
  | st, [] => (st, false)
  | st, lot :: rest =>
    if limitReached limit st.total then (st, true)
    else
      match getItemId lot with
      | some iid =>
        if iid = "" then
          emitLots limit { st with errors := st.errors + 1 } rest
        else
          emitLots limit
            { st with
              total := st.total + 1
              itemsFound := st.itemsFound + 1
              emitted := st.emitted ++ [(iid, enrichLotData lot)] } rest
      | none => emitLots limit { st with errors := st.errors + 1 } rest

/-- The part of the loop body that handles a truthy extracted cache dict:
extract the lots, filter out duplicates, emit, and decide whether to turn the
page. -/
def processCachePage (limit : Option Nat) (st0 : CatState)
    (apolloState : List (String × JVal)) : CatState × Bool :=
  let lots := extractLotsFromApollo apolloState
  let st := { st0 with
    pagesScraped := st0.pagesScraped + 1
    processedLots := st0.processedLots ++ lots }
  let d := dedupNew st.seen lots
  let st := { st with seen := d.2 }
  if d.1.isEmpty then (st, false)
  else
    let e := emitLots limit st d.1
    if e.2 then (e.1, false)
    else if lots.length < ITEMS_PER_PAGE / 2 then (e.1, false)
    else ({ e.1 with trace := e.1.trace ++ [Ev.delay] }, true)

/-- One iteration of the `while` body of `scrape_category`, from the
`_fetch_page` call to either a termination (`false`) or the `page += 1;
self._delay()` continuation (`true`). -/
def processPage (limit : Option Nat) (st0 : CatState) (p : FetchOutcome) :
    CatState × Bool :=
  let st := { st0 with
    fetchCount := st0.fetchCount + 1
    trace := st0.trace ++ [Ev.fetch] }
  match p with
  | .fail => ({ st with errors := st.errors + 1 }, false)
  | .page h =>
    if htmlTruthy h = false then (st, false)
    else
      match extractApolloState h with
      | (none, e) => ({ st with errors := st.errors + e }, false)
      | (some v, e) =>
        let st := { st with errors := st.errors + e }
        if pyTruthy v = false then (st, false)
        else
          match v with
          | .obj apolloState => processCachePage limit st apolloState
          | _ => ({ st with crashed := true }, false)

/-- The `while total_items < test_limit` loop of `scrape_category`, driven by
the sequence of fetch outcomes the network would deliver for pages 1, 2, ….
 (Running off the end of the modelled sequence stops the recursion.) -/
def scrapeCatAux (limit : Option Nat) (st : CatState) :
    List FetchOutcome → CatState
  | [] => st
  | p :: rest =>
    if limitReached limit st.total then st
    else
      match processPage limit st p with
      | (st2, true) => scrapeCatAux limit st2 rest
      | (st2, false) => st2

/-- `scrape_category`, from a fresh per-category state. -/
def scrapeCategory (limit : Option Nat) (pages : List FetchOutcome) : CatState :=
  scrapeCatAux limit CatState.init pages

/-! ## `scrape_all` -/

/-- The configuration fields `scrape_all`/`scrape_category` read. -/
structure Config where
  searchCategories : List String
  testMode : Bool
  testLimit : Nat

/-- `categories = self.config.search_categories or [None]`. -/
def sessionCategories (cfg : Config) : List (Option String) :=
  if cfg.searchCategories.isEmpty then [none] else cfg.searchCategories.map some

/-- Session-level state of `scrape_all`: the shared `self.stats` fields, the
yielded `(item_id, record, category)` triples, and the observable trace. -/
structure AllState where
  itemsFound : Nat
  errors : Nat
  pagesScraped : Nat
  fetchCount : Nat
  emittedAll : List (String × LotRec × Option String)
  trace : List Ev
  crashed : Bool

def AllState.init : AllState := ⟨0, 0, 0, 0, [], [], false⟩

/-- Start-of-category state: fresh `seen_ids` and `total_items`, shared
session statistics. -/
def catInit (st : AllState) : CatState :=
  ⟨[], 0, st.itemsFound, st.errors, st.pagesScraped, st.fetchCount, [], [],
    st.trace, st.crashed⟩

/-- The `for category in categories` loop of `scrape_all`.  `data i` is the
fetch-outcome sequence for the `i`-th configured category; `lastCat` is
`categories[-1]`, compared by value for the inter-category delay. -/
def scrapeAllAux (cfg : Config) (data : Nat → List FetchOutcome)
    (lastCat : Option String) :
    List (Option String) → Nat → AllState → AllState
  | [], _, st => st
  | c :: rest, idx, st =>
    let limit : Option Nat := if cfg.testMode then some cfg.testLimit else none
    let cs := scrapeCatAux limit (catInit st) (data idx)
    let st : AllState :=
      ⟨cs.itemsFound, cs.errors, cs.pagesScraped, cs.fetchCount,
        st.emittedAll ++ cs.emitted.map (fun p => (p.1, p.2, c)),
        cs.trace, cs.crashed⟩
    if st.crashed then st
    else if cfg.testMode ∧ cfg.testLimit ≤ st.itemsFound then st
    else
      let st :=
        if c ≠ lastCat then { st with trace := st.trace ++ [Ev.delay] } else st
      scrapeAllAux cfg data lastCat rest (idx + 1) st

/-- `scrape_all`. -/
def scrapeAll (cfg : Config) (data : Nat → List FetchOutcome) : AllState :=
  let cats := sessionCategories cfg
  scrapeAllAux cfg data (cats.getLast?.getD none) cats 0 AllState.init

/-! ## Helper notions used by the statements -/

/-- The field list of an object value. -/
def JVal.objFields : JVal → List (String × JVal)
  | .obj fs => fs
  | _ => []

/-- `field in item and item[field]`: the value when present and truthy. -/
def truthyGet (item : LotRec) (f : String) : Option JVal :=
  match dget item f with
  | some v => if pyTruthy v then some v else none
  | none => none

/-! ## Concrete instances used by witnesses and counterexamples,
and specification-level reference functions -/

/-- Reference description of what the emission loop appends: the prefix of
the new lots that fits under the test limit, each enriched and keyed by its
identifier (id-less lots would be skipped while counting an error, but the
duplicate filter never passes one through). -/
def emitSpec (limit : Option Nat) (total : Nat) :
    List LotRec → List (String × LotRec)
  | [] => []
  | lot :: rest =>
    if limitReached limit total then []
    else
      match getItemId lot with
      | some iid =>
        if iid = "" then emitSpec limit total rest
        else (iid, enrichLotData lot) :: emitSpec limit (total + 1) rest
      | none => emitSpec limit total rest

/-- The error-counter increment a page can cause: one for an exhausted fetch
(inside `_fetch_page`), the extraction increment otherwise.  Lot handling
never contributes (the id-less branch of the emission loop is unreachable
because the duplicate filter already removed id-less lots). -/
def pageErr : FetchOutcome → Nat
  | .fail => 1
  | .page h => (extractApolloState h).2

def pagesErr (pages : List FetchOutcome) : Nat := (pages.map pageErr).sum

/-- Invariant over the observable category state: emitted identifiers are
pairwise distinct and recorded in the seen-set; the non-empty identifier
of every processed lot is in the seen-set; and every emitted pair is the
enrichment of the first processed lot bearing its identifier. -/
def CatInvP (emitted : List (String × LotRec)) (seen : List String)
    (processed : List LotRec) : Prop :=
  ((emitted.map Prod.fst).Nodup)
  ∧ (∀ iid ∈ emitted.map Prod.fst, iid ∈ seen)
  ∧ (∀ l ∈ processed, ∀ iid, getItemId l = some iid → iid ≠ "" → iid ∈ seen)
  ∧ (∀ p ∈ emitted, ∃ pre lot post,
      processed = pre ++ lot :: post
      ∧ getItemId lot = some p.1 ∧ p.2 = enrichLotData lot
      ∧ ∀ l ∈ pre, getItemId l ≠ some p.1)

def CatInv (st : CatState) : Prop :=
  CatInvP st.emitted st.seen st.processedLots

/-- The cache of the round-trip example in the specification, plus one lot whose
reference does not resolve. -/
def c3Cache : List (String × JVal) :=
  [("Auction:1", .obj [("__typename", .str "Auction"),
      ("eventName", .str "Spring Sale")]),
   ("Lot:100", .obj [("__typename", .str "Lot"), ("id", .str "100"),
      ("auction", .obj [("__ref", .str "Auction:1")])]),
   ("Lot:200", .obj [("__typename", .str "Lot"), ("id", .str "200"),
      ("auction", .obj [("__ref", .str "Auction:99")])])]

def c3LotResolved : LotRec :=
  [("__typename", .str "Lot"), ("id", .str "100"),
   ("auction", .obj [("__ref", .str "Auction:1")])]

def c3LotUnresolved : LotRec :=
  [("__typename", .str "Lot"), ("id", .str "200"),
   ("auction", .obj [("__ref", .str "Auction:99")])]

def pagesC7 : List FetchOutcome :=
  [.page (.stateJson (.obj [("apollo.state", .obj
    [("Lot:1", .obj [("__typename", .str "Lot"), ("id", .str "1")]),
     ("Lot:1bis", .obj [("__typename", .str "Lot"), ("id", .str "1"),
        ("note", .str "duplicate")])])]))]

def pagesC2 : List FetchOutcome :=
  [.page (.stateJson (.obj [("apollo.state", .obj
    [("Lot:9", .obj [("__typename", .str "Lot")]),
     ("Lot:1", .obj [("__typename", .str "Lot"), ("id", .str "1")])])]))]

def cfgC1 : Config := ⟨["a", "b"], true, 2⟩

def dataC1 : Nat → List FetchOutcome := fun i =>
  if i = 0 then
    [.page (.stateJson (.obj [("apollo.state", .obj
      [("Lot:1", .obj [("__typename", .str "Lot"), ("id", .str "1")])])]))]
  else if i = 1 then
    [.page (.stateJson (.obj [("apollo.state", .obj
      [("Lot:2", .obj [("__typename", .str "Lot"), ("id", .str "2")]),
       ("Lot:3", .obj [("__typename", .str "Lot"), ("id", .str "3")])])]))]
  else []

def cfgC9 : Config := ⟨["a", "a"], false, 20⟩

/-! ## Dictionary lemmas -/

theorem dget_replaceKey_self (k : String) (v : JVal) :
    ∀ m : LotRec, (m.any fun kv => kv.1 = k) = true →
      dget (replaceKey m k v) k = some v := by
  intro m
  induction m with
  | nil => simp
  | cons a m ih =>
    obtain ⟨k1, v1⟩ := a
    intro h
    by_cases hk : k1 = k
    · simp [replaceKey, hk, dget]
    · have h2 : (m.any fun kv => kv.1 = k) = true := by simpa [hk] using h
      simpa [replaceKey, hk, dget] using ih h2

theorem dget_append_self (k : String) (v : JVal) :
    ∀ m : LotRec, (m.any fun kv => kv.1 = k) = false →
      dget (m ++ [(k, v)]) k = some v := by
  intro m
  induction m with
  | nil => simp [dget]
  | cons a m ih =>
    obtain ⟨k1, v1⟩ := a
    intro h
    have hk : ¬ k1 = k := by
      intro hak
      simp [hak] at h
    have h2 : (m.any fun kv => kv.1 = k) = false := by simpa [hk] using h
    simpa [dget, hk] using ih h2

theorem dget_pySet_self (m : LotRec) (k : String) (v : JVal) :
    dget (pySet m k v) k = some v := by
  unfold pySet
  split
  case isTrue h => exact dget_replaceKey_self k v m h
  case isFalse h =>
    exact dget_append_self k v m (Bool.eq_false_iff.mpr h)

theorem dget_replaceKey_ne (k k0 : String) (v : JVal) (h : k0 ≠ k) :
    ∀ m : LotRec, dget (replaceKey m k v) k0 = dget m k0 := by
  intro m
  induction m with
  | nil => simp [replaceKey]
  | cons a m ih =>
    obtain ⟨k1, v1⟩ := a
    by_cases hk : k1 = k
    · subst hk
      simp [replaceKey, dget, Ne.symm h, ih]
    · simp [replaceKey, hk, dget, ih]

theorem dget_append_ne (k k0 : String) (v : JVal) (h : k0 ≠ k) :
    ∀ m : LotRec, dget (m ++ [(k, v)]) k0 = dget m k0 := by
  intro m
  induction m with
  | nil => simp [dget, Ne.symm h]
  | cons a m ih =>
    obtain ⟨k1, v1⟩ := a
    by_cases hk : k1 = k0
    · simp [dget, hk]
    · simpa [dget, hk] using ih

theorem dget_pySet_ne (m : LotRec) (k k0 : String) (v : JVal) (h : k0 ≠ k) :
    dget (pySet m k v) k0 = dget m k0 := by
  unfold pySet
  split
  · exact dget_replaceKey_ne k k0 v h m
  · exact dget_append_ne k k0 v h m

theorem dget_pyPop_ne (m : LotRec) (k k0 : String) (h : k0 ≠ k) :
    dget (pyPop m k) k0 = dget m k0 := by
  induction m with
  | nil => simp [pyPop, dget]
  | cons a m ih =>
    obtain ⟨k1, v1⟩ := a
    by_cases hk : k1 = k
    · subst hk
      simpa [pyPop, dget, Ne.symm h] using ih
    · by_cases hk0 : k1 = k0
      · subst hk0
        simp [pyPop, dget, List.filter_cons, hk]
      · simpa [pyPop, dget, List.filter_cons, hk, hk0] using ih

/-! ## Resolver lemmas -/

theorem dget_resolveAuctionRef_ne (A : List (String × JVal)) (lot : LotRec)
    (k : String) (h : k ≠ "_resolved_auction") :
    dget (resolveAuctionRef A lot) k = dget lot k := by
  unfold resolveAuctionRef
  repeat' split
  all_goals first
  | rfl
  | exact dget_pySet_ne _ _ _ _ h

theorem dget_resolveLotStateRef_ne (S : List (String × JVal)) (lot : LotRec)
    (k : String) (h : k ≠ "_resolved_lotState") :
    dget (resolveLotStateRef S lot) k = dget lot k := by
  unfold resolveLotStateRef
  repeat' split
  all_goals first
  | rfl
  | exact dget_pySet_ne _ _ _ _ h

theorem resolveAuctionRef_resolved (A : List (String × JVal)) (lot : LotRec)
    (aref : LotRec) (r a : JVal)
    (h1 : dget lot "auction" = some (.obj aref))
    (h2 : dget aref "__ref" = some r)
    (h3 : refLookup A r = some a) :
    resolveAuctionRef A lot = pySet lot "_resolved_auction" a := by
  unfold resolveAuctionRef
  rw [h1]
  simp only [Option.getD_some]
  rw [h2]
  dsimp only
  rw [h3]

theorem resolveAuctionRef_unresolved (A : List (String × JVal)) (lot : LotRec)
    (aref : LotRec) (r : JVal)
    (h1 : dget lot "auction" = some (.obj aref))
    (h2 : dget aref "__ref" = some r)
    (h3 : refLookup A r = none) :
    resolveAuctionRef A lot = lot := by
  unfold resolveAuctionRef
  rw [h1]
  simp only [Option.getD_some]
  rw [h2]
  dsimp only
  rw [h3]

theorem dget_moveResolvedAuction_found (m : LotRec) (a : JVal)
    (h : dget m "_resolved_auction" = some a) :
    dget (moveResolvedAuction m) "auction_data" = some a := by
  unfold moveResolvedAuction
  rw [h]
  exact dget_pySet_self _ _ _

theorem dget_moveResolvedAuction_ne (m : LotRec) (k : String)
    (h1 : k ≠ "_resolved_auction") (h2 : k ≠ "auction_data") :
    dget (moveResolvedAuction m) k = dget m k := by
  unfold moveResolvedAuction
  split
  · rw [dget_pySet_ne _ _ _ _ h2, dget_pyPop_ne _ _ _ h1]
  · rfl

theorem dget_moveResolvedLotState_ne (m : LotRec) (k : String)
    (h1 : k ≠ "_resolved_lotState") (h2 : k ≠ "lot_state_data") :
    dget (moveResolvedLotState m) k = dget m k := by
  unfold moveResolvedLotState
  split
  · rw [dget_pySet_ne _ _ _ _ h2, dget_pyPop_ne _ _ _ h1]
  · rfl

theorem dget_moveAuctionRef_found (m : LotRec) (aref : LotRec) (r : JVal)
    (h1 : dget m "auction" = some (.obj aref))
    (h2 : dget aref "__ref" = some r) :
    dget (moveAuctionRef m) "auction_ref" = some r := by
  unfold moveAuctionRef
  rw [h1]
  dsimp only
  rw [h2]
  exact dget_pySet_self _ _ _

theorem dget_moveAuctionRef_ne (m : LotRec) (k : String)
    (h1 : k ≠ "auction") (h2 : k ≠ "auction_ref") :
    dget (moveAuctionRef m) k = dget m k := by
  unfold moveAuctionRef
  repeat' split
  all_goals first
  | rfl
  | rw [dget_pySet_ne _ _ _ _ h2, dget_pyPop_ne _ _ _ h1]

theorem dget_moveLotStateRef_ne (m : LotRec) (k : String)
    (h1 : k ≠ "lotState") (h2 : k ≠ "lot_state_ref") :
    dget (moveLotStateRef m) k = dget m k := by
  unfold moveLotStateRef
  repeat' split
  all_goals first
  | rfl
  | rw [dget_pySet_ne _ _ _ _ h2, dget_pyPop_ne _ _ _ h1]

/-- `_extract_lots_from_apollo` keeps exactly the entities recognized as
Lots, in cache order, each processed by the resolution body. -/
theorem collectLots_eq (A S : List (String × JVal)) :
    ∀ l : List (String × JVal),
      collectLots A S l =
        (l.filter fun kv => isLotEntry kv.1 kv.2).map
          (fun kv => processLot A S kv.2.objFields) := by
  intro l
  induction l with
  | nil => rfl
  | cons kv rest ih =>
    obtain ⟨key, value⟩ := kv
    match value with
    | .obj fields =>
      by_cases h : (typenameIs fields "Lot" || strStartsWith key "Lot:") = true
      · simp [collectLots, isLotEntry, List.filter_cons, h, JVal.objFields, ih]
      · simp [collectLots, isLotEntry, List.filter_cons, h, ih]
    | .null => simpa [collectLots, isLotEntry, List.filter_cons] using ih
    | .bool b => simpa [collectLots, isLotEntry, List.filter_cons] using ih
    | .num n => simpa [collectLots, isLotEntry, List.filter_cons] using ih
    | .str s => simpa [collectLots, isLotEntry, List.filter_cons] using ih
    | .arr xs => simpa [collectLots, isLotEntry, List.filter_cons] using ih

end Hibid

namespace Hibid

/-! ## C4: identifier priority -/

theorem getItemIdLoop_cons (item : LotRec) (f : String) (rest : List String) :
    getItemIdLoop item (f :: rest) =
      match truthyGet item f with
      | some v => some (pyStr v)
      | none => getItemIdLoop item rest := by
  simp only [getItemIdLoop, truthyGet]
  cases h : dget item f with
  | none => rfl
  | some v => cases ht : pyTruthy v <;> simp [ht]

/-- C4: `_get_item_id` derives the canonical identifier by priority among the
candidate fields `id`, `itemId`, `eventItemId` — the first present field with
a truthy value, stringified; if none yields a value, the composite
`lot-<raw id>` of the (lowercased) type tag and the raw `id` entry is used for
records tagged `"Lot"`; only when that is also unavailable is the result
`None`. -/
theorem getItemId_priority (item : LotRec) :
    getItemId item =
      match truthyGet item "id", truthyGet item "itemId",
          truthyGet item "eventItemId" with
      | some v, _, _ => some (pyStr v)
      | none, some v, _ => some (pyStr v)
      | none, none, some v => some (pyStr v)
      | none, none, none =>
        if typenameIs item "Lot" then
          (dget item "id").map (fun v => "lot-" ++ pyStr v)
        else none := by
  unfold getItemId
  rw [show idFields = ["id", "itemId", "eventItemId"] from rfl]
  rw [getItemIdLoop_cons, getItemIdLoop_cons, getItemIdLoop_cons]
  cases g1 : truthyGet item "id" <;>
    cases g2 : truthyGet item "itemId" <;>
      cases g3 : truthyGet item "eventItemId" <;>
        simp [getItemIdLoop]
  cases g0 : dget item "id" <;> simp

/-! ## C3: the resolver keeps every Lot and inlines or retains references -/

/-- C3: for every cache, the resolver output has exactly one (enriched)
record for every entity recognized as a Lot, in cache order — a Lot is never
dropped by resolution; a parent-event reference that resolves in the auction
index is inlined in full under `auction_data`; one that does not resolve is
kept verbatim under `auction_ref`. -/
theorem resolver_lots_and_references (apolloState : List (String × JVal)) :
    (resolveLots apolloState =
      (apolloState.filter fun kv => isLotEntry kv.1 kv.2).map
        (fun kv =>
          enrichLotData
            (processLot (buildAuctions apolloState) apolloState
              kv.2.objFields)))
    ∧ (∀ lot aref r a,
        dget lot "auction" = some (.obj aref) →
        dget aref "__ref" = some r →
        refLookup (buildAuctions apolloState) r = some a →
        dget (enrichLotData
            (processLot (buildAuctions apolloState) apolloState lot))
          "auction_data" = some a)
    ∧ (∀ lot aref r,
        dget lot "auction" = some (.obj aref) →
        dget aref "__ref" = some r →
        refLookup (buildAuctions apolloState) r = none →
        dget (enrichLotData
            (processLot (buildAuctions apolloState) apolloState lot))
          "auction_ref" = some r) := by
  refine ⟨?_, ?_, ?_⟩
  · unfold resolveLots extractLotsFromApollo
    rw [collectLots_eq]
    simp [List.map_map, Function.comp]
  · intro lot aref r a h1 h2 h3
    unfold processLot enrichLotData
    rw [resolveAuctionRef_resolved _ _ _ _ _ h1 h2 h3]
    have h4 : dget (resolveLotStateRef apolloState
        (pySet lot "_resolved_auction" a)) "_resolved_auction" = some a := by
      rw [dget_resolveLotStateRef_ne _ _ _ (by decide)]
      exact dget_pySet_self _ _ _
    rw [dget_moveLotStateRef_ne _ _ (by decide) (by decide),
        dget_moveAuctionRef_ne _ _ (by decide) (by decide),
        dget_moveResolvedLotState_ne _ _ (by decide) (by decide)]
    exact dget_moveResolvedAuction_found _ _ h4
  · intro lot aref r h1 h2 h3
    unfold processLot enrichLotData
    rw [resolveAuctionRef_unresolved _ _ _ _ h1 h2 h3]
    have h5 : dget (moveResolvedLotState (moveResolvedAuction
        (resolveLotStateRef apolloState lot))) "auction" = some (.obj aref) := by
      rw [dget_moveResolvedLotState_ne _ _ (by decide) (by decide),
          dget_moveResolvedAuction_ne _ _ (by decide) (by decide),
          dget_resolveLotStateRef_ne _ _ _ (by decide)]
      exact h1
    rw [dget_moveLotStateRef_ne _ _ (by decide) (by decide)]
    exact dget_moveAuctionRef_found _ _ _ h5 h2


theorem resolver_lots_and_references_witness :
    dget (enrichLotData
        (processLot (buildAuctions c3Cache) c3Cache c3LotResolved))
      "auction_data" = some (.obj [("__typename", .str "Auction"),
        ("eventName", .str "Spring Sale")])
    ∧ dget (enrichLotData
        (processLot (buildAuctions c3Cache) c3Cache c3LotUnresolved))
      "auction_ref" = some (.str "Auction:99") :=
  ⟨(resolver_lots_and_references c3Cache).2.1 c3LotResolved
      [("__ref", .str "Auction:1")] (.str "Auction:1")
      (.obj [("__typename", .str "Auction"), ("eventName", .str "Spring Sale")])
      (by rfl) (by rfl) (by rfl),
   (resolver_lots_and_references c3Cache).2.2 c3LotUnresolved
      [("__ref", .str "Auction:99")] (.str "Auction:99")
      (by rfl) (by rfl) (by rfl)⟩

end Hibid

namespace Hibid

/-! ## C10: empty or missing `apollo.state` ends the page like a missing
state block -/

/-- C10: when the state script holds valid JSON that lacks the nested
`apollo.state` field, or whose cache under that field is empty, extraction
returns the empty mapping and the category iteration behaves exactly as it
does on a page with no recognizable state block: pagination ends there, with
no error-counter increment. -/
theorem emptyState_like_missingBlock (limit : Option Nat) (st : CatState)
    (fields : List (String × JVal))
    (h : dget fields "apollo.state" = none
        ∨ dget fields "apollo.state" = some (.obj [])) :
    extractApolloState (.stateJson (.obj fields)) = (some (.obj []), 0)
    ∧ processPage limit st (.page (.stateJson (.obj fields)))
        = processPage limit st (.page .noStateScript) := by
  have he : extractApolloState (.stateJson (.obj fields))
      = (some (.obj []), 0) := by
    rcases h with h | h <;> simp [extractApolloState, h]
  refine ⟨he, ?_⟩
  unfold processPage
  dsimp only [htmlTruthy]
  rw [he]
  simp [pyTruthy, extractApolloState]

theorem emptyState_like_missingBlock_witness :
    extractApolloState (.stateJson (.obj [("x", .num 1)])) = (some (.obj []), 0)
    ∧ processPage none CatState.init (.page (.stateJson (.obj [("x", .num 1)])))
        = processPage none CatState.init (.page .noStateScript) :=
  emptyState_like_missingBlock none CatState.init [("x", .num 1)]
    (Or.inl (by rfl))

/-! ## C8: `_fetch_page` retry schedule -/

/-- C8: `_fetch_page` makes at most 3 attempts; after the `i`-th failed
non-final attempt it sleeps `i * 5` seconds; exactly one error is counted
only when every attempt fails; in particular two transient failures followed
by a success on the third attempt return the HTML of that page with zero errors
and exactly the two backoff sleeps of 5 and 10 seconds. -/
theorem fetchPage_retry_schedule (f : AttemptOutcomes) :
    (fetchPage f 3).attemptsUsed ≤ 3
    ∧ (∀ h, f 0 = some h → fetchPage f 3 = ⟨some h, 0, [], 1⟩)
    ∧ (∀ h, f 0 = none → f 1 = some h → fetchPage f 3 = ⟨some h, 0, [5], 2⟩)
    ∧ (∀ h, f 0 = none → f 1 = none → f 2 = some h →
        fetchPage f 3 = ⟨some h, 0, [5, 10], 3⟩)
    ∧ (f 0 = none → f 1 = none → f 2 = none →
        fetchPage f 3 = ⟨none, 1, [5, 10], 3⟩) := by
  have hr : List.range 3 = [0, 1, 2] := by rfl
  unfold fetchPage
  rw [hr]
  refine ⟨?_, ?_, ?_, ?_, ?_⟩
  · cases h0 : f 0 <;> cases h1 : f 1 <;> cases h2 : f 2 <;>
      simp [fetchPageLoop, h0, h1, h2]
  · intro h hh
    simp [fetchPageLoop, hh]
  · intro h h0 h1
    simp [fetchPageLoop, h0, h1]
  · intro h h0 h1 h2
    simp [fetchPageLoop, h0, h1, h2]
  · intro h0 h1 h2
    simp [fetchPageLoop, h0, h1, h2]

theorem fetchPage_retry_schedule_witness :
    fetchPage (fun n => if n = 2 then some .noStateScript else none) 3
      = ⟨some .noStateScript, 0, [5, 10], 3⟩ :=
  (fetchPage_retry_schedule
      (fun n => if n = 2 then some .noStateScript else none)).2.2.2.1
    .noStateScript (by rfl) (by rfl) (by rfl)

end Hibid

namespace Hibid

/-! ## Emission-loop lemmas -/


theorem emitLots_spec (limit : Option Nat) :
    ∀ (lots : List LotRec) (st : CatState),
      (emitLots limit st lots).1.emitted
          = st.emitted ++ emitSpec limit st.total lots
      ∧ (emitLots limit st lots).1.total
          = st.total + (emitSpec limit st.total lots).length
      ∧ (emitLots limit st lots).1.itemsFound
          = st.itemsFound + (emitSpec limit st.total lots).length
      ∧ (emitLots limit st lots).1.fetchCount = st.fetchCount
      ∧ (emitLots limit st lots).1.seen = st.seen
      ∧ (emitLots limit st lots).1.trace = st.trace
      ∧ (emitLots limit st lots).1.pagesScraped = st.pagesScraped
      ∧ (emitLots limit st lots).1.processedLots = st.processedLots
      ∧ (emitLots limit st lots).1.crashed = st.crashed := by
  intro lots
  induction lots with
  | nil => intro st; simp [emitLots, emitSpec]
  | cons lot rest ih =>
    intro st
    by_cases hg : limitReached limit st.total = true
    · simp [emitLots, emitSpec, hg]
    · have hg2 : limitReached limit st.total = false := by
        simpa using hg
      cases hid : getItemId lot with
      | none => simpa [emitLots, emitSpec, hg2, hid] using ih _
      | some iid =>
        by_cases hiid : iid = ""
        · simpa [emitLots, emitSpec, hg2, hid, hiid] using ih _
        · have := ih { st with
            total := st.total + 1
            itemsFound := st.itemsFound + 1
            emitted := st.emitted ++ [(iid, enrichLotData lot)] }
          simp [emitLots, emitSpec, hg2, hid, hiid] at this ⊢
          simp [this]
          omega

end Hibid

namespace Hibid

theorem emitLots_emitted (limit : Option Nat) (st : CatState)
    (lots : List LotRec) :
    (emitLots limit st lots).1.emitted
      = st.emitted ++ emitSpec limit st.total lots :=
  (emitLots_spec limit lots st).1

theorem emitLots_total (limit : Option Nat) (st : CatState)
    (lots : List LotRec) :
    (emitLots limit st lots).1.total
      = st.total + (emitSpec limit st.total lots).length :=
  (emitLots_spec limit lots st).2.1

theorem emitLots_itemsFound (limit : Option Nat) (st : CatState)
    (lots : List LotRec) :
    (emitLots limit st lots).1.itemsFound
      = st.itemsFound + (emitSpec limit st.total lots).length :=
  (emitLots_spec limit lots st).2.2.1

theorem emitLots_fetchCount (limit : Option Nat) (st : CatState)
    (lots : List LotRec) :
    (emitLots limit st lots).1.fetchCount = st.fetchCount :=
  (emitLots_spec limit lots st).2.2.2.1

theorem emitLots_seen (limit : Option Nat) (st : CatState)
    (lots : List LotRec) :
    (emitLots limit st lots).1.seen = st.seen :=
  (emitLots_spec limit lots st).2.2.2.2.1

theorem emitLots_trace (limit : Option Nat) (st : CatState)
    (lots : List LotRec) :
    (emitLots limit st lots).1.trace = st.trace :=
  (emitLots_spec limit lots st).2.2.2.2.2.1

theorem emitLots_pagesScraped (limit : Option Nat) (st : CatState)
    (lots : List LotRec) :
    (emitLots limit st lots).1.pagesScraped = st.pagesScraped :=
  (emitLots_spec limit lots st).2.2.2.2.2.2.1

theorem emitLots_processedLots (limit : Option Nat) (st : CatState)
    (lots : List LotRec) :
    (emitLots limit st lots).1.processedLots = st.processedLots :=
  (emitLots_spec limit lots st).2.2.2.2.2.2.2.1

theorem emitLots_crashed (limit : Option Nat) (st : CatState)
    (lots : List LotRec) :
    (emitLots limit st lots).1.crashed = st.crashed :=
  (emitLots_spec limit lots st).2.2.2.2.2.2.2.2

/-- Every iteration of the category loop performs exactly one page fetch. -/
theorem processPage_fetchCount (limit : Option Nat) (st : CatState)
    (p : FetchOutcome) :
    (processPage limit st p).1.fetchCount = st.fetchCount + 1 := by
  unfold processPage
  cases p with
  | fail => rfl
  | page h =>
    by_cases hh : htmlTruthy h = false
    · simp [hh]
    · simp [hh]
      cases hx : extractApolloState h with
      | mk o e =>
        cases o with
        | none => simp
        | some v =>
          simp
          by_cases ht : pyTruthy v = false
          · simp [ht]
          · simp [ht]
            cases v with
            | obj apolloState =>
              simp [processCachePage]
              split
              · rfl
              · split <;> try split
                all_goals simp [emitLots_fetchCount]
            | null => rfl
            | bool b => rfl
            | num n => rfl
            | str s => rfl
            | arr xs => rfl

/-- When the body signals a stop, the category loop never looks at the
remaining pages. -/
theorem scrapeCatAux_stop (limit : Option Nat) (st st2 : CatState)
    (p : FetchOutcome) (rest : List FetchOutcome)
    (hg : limitReached limit st.total = false)
    (hp : processPage limit st p = (st2, false)) :
    scrapeCatAux limit st (p :: rest) = st2 := by
  simp [scrapeCatAux, hg, hp]

end Hibid

namespace Hibid

/-- A successful extraction only comes from a truthy page whose state JSON is
a dict, and never counts an error. -/
theorem extract_some (h : Html) (v : JVal) (e : Nat)
    (hx : extractApolloState h = (some v, e)) :
    htmlTruthy h = true ∧ e = 0 := by
  cases h with
  | emptyDoc => simp [extractApolloState] at hx
  | noStateScript => simp [extractApolloState] at hx
  | malformedJson => simp [extractApolloState] at hx
  | stateJson v0 =>
    cases v0 <;> simp [extractApolloState, htmlTruthy] at hx ⊢
    omega

/-- On a page carrying fewer raw lots than half the page size, the loop body
emits the limit-truncated new lots of the page and signals termination. -/
theorem processCachePage_short (limit : Option Nat) (st : CatState)
    (cache : List (String × JVal))
    (hshort : (extractLotsFromApollo cache).length < ITEMS_PER_PAGE / 2) :
    (processCachePage limit st cache).2 = false
    ∧ (processCachePage limit st cache).1.emitted
        = st.emitted ++ emitSpec limit st.total
            (dedupNew st.seen (extractLotsFromApollo cache)).1 := by
  unfold processCachePage
  by_cases hempty :
      (dedupNew st.seen (extractLotsFromApollo cache)).1.isEmpty = true
  · have hnil : (dedupNew st.seen (extractLotsFromApollo cache)).1 = [] := by
      simpa using hempty
    simp [hempty, hnil, emitSpec]
  · simp only [hempty, Bool.false_eq_true, if_false]
    split
    · simp [emitLots_emitted]
    · simp [hshort, emitLots_emitted]

/-- On a page yielding zero new (non-duplicate, identifier-bearing) lots, the
loop body emits nothing and signals termination. -/
theorem processCachePage_noNew (limit : Option Nat) (st : CatState)
    (cache : List (String × JVal))
    (hempty : (dedupNew st.seen (extractLotsFromApollo cache)).1 = []) :
    (processCachePage limit st cache).2 = false
    ∧ (processCachePage limit st cache).1.emitted = st.emitted := by
  unfold processCachePage
  simp [hempty]

end Hibid

namespace Hibid

/-- Lifting `processCachePage_short` through the fetch/extract prelude. -/
theorem processPage_short (limit : Option Nat) (st : CatState) (h : Html)
    (cache : List (String × JVal)) (e : Nat)
    (hx : extractApolloState h = (some (.obj cache), e))
    (hshort : (extractLotsFromApollo cache).length < ITEMS_PER_PAGE / 2) :
    (processPage limit st (.page h)).2 = false
    ∧ (processPage limit st (.page h)).1.emitted
        = st.emitted ++ emitSpec limit st.total
            (dedupNew st.seen (extractLotsFromApollo cache)).1 := by
  have hh : htmlTruthy h = true := (extract_some h _ e hx).1
  by_cases ht : pyTruthy (.obj cache) = true
  · simp only [processPage, hh, hx, ht, Bool.true_eq_false, if_false]
    simpa using processCachePage_short limit
      { st with
        fetchCount := st.fetchCount + 1
        trace := st.trace ++ [Ev.fetch]
        errors := st.errors + e } cache hshort
  · have hc : cache = [] := by
      cases cache with
      | nil => rfl
      | cons a l => simp [pyTruthy] at ht
    subst hc
    have ht2 : pyTruthy (JVal.obj []) = false := by simp [pyTruthy]
    simp [processPage, hh, hx, ht2, extractLotsFromApollo, buildAuctions,
      collectLots, dedupNew, emitSpec]

/-- Lifting `processCachePage_noNew` through the fetch/extract prelude. -/
theorem processPage_noNew (limit : Option Nat) (st : CatState) (h : Html)
    (cache : List (String × JVal)) (e : Nat)
    (hx : extractApolloState h = (some (.obj cache), e))
    (hempty : (dedupNew st.seen (extractLotsFromApollo cache)).1 = []) :
    (processPage limit st (.page h)).2 = false
    ∧ (processPage limit st (.page h)).1.emitted = st.emitted := by
  have hh : htmlTruthy h = true := (extract_some h _ e hx).1
  by_cases ht : pyTruthy (.obj cache) = true
  · simp only [processPage, hh, hx, ht, Bool.true_eq_false, if_false]
    simpa using processCachePage_noNew limit
      { st with
        fetchCount := st.fetchCount + 1
        trace := st.trace ++ [Ev.fetch]
        errors := st.errors + e } cache (by simpa using hempty)
  · have hc : cache = [] := by
      cases cache with
      | nil => rfl
      | cons a l => simp [pyTruthy] at ht
    subst hc
    have ht2 : pyTruthy (JVal.obj []) = false := by simp [pyTruthy]
    simp [processPage, hh, hx, ht2]

/-- C5: from any point of a category session, a fetched page carrying fewer
raw lots (before deduplication) than half the configured page size
(`ITEMS_PER_PAGE // 2 = 50`) is terminal: the loop emits the new lots of that page
(truncated by the test limit), then stops — the following pages are never
fetched, regardless of how many lots on the page were duplicates. -/
theorem scrapeCategory_trailing_page_stops
    (limit : Option Nat) (st : CatState) (h : Html)
    (rest : List FetchOutcome) (cache : List (String × JVal)) (e : Nat)
    (hg : limitReached limit st.total = false)
    (hx : extractApolloState h = (some (.obj cache), e))
    (hshort : (extractLotsFromApollo cache).length < ITEMS_PER_PAGE / 2) :
    scrapeCatAux limit st (.page h :: rest) = (processPage limit st (.page h)).1
    ∧ (scrapeCatAux limit st (.page h :: rest)).fetchCount = st.fetchCount + 1
    ∧ (scrapeCatAux limit st (.page h :: rest)).emitted
        = st.emitted ++ emitSpec limit st.total
            (dedupNew st.seen (extractLotsFromApollo cache)).1 := by
  obtain ⟨h2, hemit⟩ := processPage_short limit st h cache e hx hshort
  have hstop := scrapeCatAux_stop limit st _ (.page h) rest hg
    (Prod.ext rfl h2)
  refine ⟨hstop, ?_, ?_⟩
  · rw [hstop, processPage_fetchCount]
  · rw [hstop, hemit]

/-- C6: from any point of a category session, a fetched page on which every
lot is either id-less or a duplicate of an already seen identifier (zero new
lots) is terminal: nothing is emitted for it and the following pages are
never fetched. -/
theorem scrapeCategory_zero_new_stops
    (limit : Option Nat) (st : CatState) (h : Html)
    (rest : List FetchOutcome) (cache : List (String × JVal)) (e : Nat)
    (hg : limitReached limit st.total = false)
    (hx : extractApolloState h = (some (.obj cache), e))
    (hempty : (dedupNew st.seen (extractLotsFromApollo cache)).1 = []) :
    scrapeCatAux limit st (.page h :: rest) = (processPage limit st (.page h)).1
    ∧ (scrapeCatAux limit st (.page h :: rest)).fetchCount = st.fetchCount + 1
    ∧ (scrapeCatAux limit st (.page h :: rest)).emitted = st.emitted := by
  obtain ⟨h2, hemit⟩ := processPage_noNew limit st h cache e hx hempty
  have hstop := scrapeCatAux_stop limit st _ (.page h) rest hg
    (Prod.ext rfl h2)
  refine ⟨hstop, ?_, ?_⟩
  · rw [hstop, processPage_fetchCount]
  · rw [hstop, hemit]

theorem scrapeCategory_trailing_page_stops_witness :
    scrapeCatAux none CatState.init
        [.page (.stateJson (.obj [("apollo.state", .obj
            [("Lot:1", .obj [("__typename", .str "Lot"),
              ("id", .str "1")])])])), .fail]
      = (processPage none CatState.init (.page (.stateJson (.obj
          [("apollo.state", .obj [("Lot:1", .obj [("__typename", .str "Lot"),
            ("id", .str "1")])])])))).1
    ∧ (scrapeCatAux none CatState.init
        [.page (.stateJson (.obj [("apollo.state", .obj
            [("Lot:1", .obj [("__typename", .str "Lot"),
              ("id", .str "1")])])])), .fail]).fetchCount = 0 + 1
    ∧ (scrapeCatAux none CatState.init
        [.page (.stateJson (.obj [("apollo.state", .obj
            [("Lot:1", .obj [("__typename", .str "Lot"),
              ("id", .str "1")])])])), .fail]).emitted
        = [] ++ emitSpec none 0
            (dedupNew [] (extractLotsFromApollo
              [("Lot:1", .obj [("__typename", .str "Lot"),
                ("id", .str "1")])])).1 :=
  scrapeCategory_trailing_page_stops none CatState.init
    (.stateJson (.obj [("apollo.state", .obj
      [("Lot:1", .obj [("__typename", .str "Lot"), ("id", .str "1")])])]))
    [.fail]
    [("Lot:1", .obj [("__typename", .str "Lot"), ("id", .str "1")])] 0
    (by rfl) (by rfl) (by decide)

theorem scrapeCategory_zero_new_stops_witness :
    scrapeCatAux none ⟨["1"], 0, 0, 0, 0, 0, [], [], [], false⟩
        [.page (.stateJson (.obj [("apollo.state", .obj
            [("Lot:1", .obj [("__typename", .str "Lot"),
              ("id", .str "1")])])])), .fail]
      = (processPage none ⟨["1"], 0, 0, 0, 0, 0, [], [], [], false⟩
          (.page (.stateJson (.obj [("apollo.state", .obj
            [("Lot:1", .obj [("__typename", .str "Lot"),
              ("id", .str "1")])])])))).1
    ∧ (scrapeCatAux none ⟨["1"], 0, 0, 0, 0, 0, [], [], [], false⟩
        [.page (.stateJson (.obj [("apollo.state", .obj
            [("Lot:1", .obj [("__typename", .str "Lot"),
              ("id", .str "1")])])])), .fail]).fetchCount = 0 + 1
    ∧ (scrapeCatAux none ⟨["1"], 0, 0, 0, 0, 0, [], [], [], false⟩
        [.page (.stateJson (.obj [("apollo.state", .obj
            [("Lot:1", .obj [("__typename", .str "Lot"),
              ("id", .str "1")])])])), .fail]).emitted = [] :=
  scrapeCategory_zero_new_stops none
    ⟨["1"], 0, 0, 0, 0, 0, [], [], [], false⟩
    (.stateJson (.obj [("apollo.state", .obj
      [("Lot:1", .obj [("__typename", .str "Lot"), ("id", .str "1")])])]))
    [.fail]
    [("Lot:1", .obj [("__typename", .str "Lot"), ("id", .str "1")])] 0
    (by rfl) (by rfl) (by rfl)

end Hibid

namespace Hibid

/-! ## Deduplication lemmas -/

theorem dedupNew_seen_mono :
    ∀ (lots : List LotRec) (seen : List String) (x : String),
      x ∈ seen → x ∈ (dedupNew seen lots).2 := by
  intro lots
  induction lots with
  | nil =>
    intro seen x hx
    simpa [dedupNew] using hx
  | cons lot rest ih =>
    intro seen x hx
    unfold dedupNew
    cases hid : getItemId lot with
    | none => exact ih seen x hx
    | some iid =>
      by_cases h1 : iid = ""
      · simp only [h1, if_pos rfl]
        exact ih seen x hx
      · by_cases h2 : iid ∈ seen
        · simp only [h1, if_neg h1, if_pos h2]
          exact ih seen x hx
        · simp only [h1, if_neg h1, if_neg h2]
          exact ih (iid :: seen) x (List.mem_cons_of_mem _ hx)

theorem dedupNew_covers :
    ∀ (lots : List LotRec) (seen : List String) (l : LotRec) (iid : String),
      l ∈ lots → getItemId l = some iid → iid ≠ "" →
      iid ∈ (dedupNew seen lots).2 := by
  intro lots
  induction lots with
  | nil => intro seen l iid hl; simp at hl
  | cons lot rest ih =>
    intro seen l iid hl hid hne
    unfold dedupNew
    rcases List.mem_cons.mp hl with hl | hl
    · subst hl
      rw [hid]
      simp only [if_neg hne]
      by_cases h2 : iid ∈ seen
      · simp only [if_pos h2]
        exact dedupNew_seen_mono rest seen iid h2
      · simp only [if_neg h2]
        exact dedupNew_seen_mono rest (iid :: seen) iid (List.mem_cons_self _ _)
    · cases hid0 : getItemId lot with
      | none => exact ih seen l iid hl hid hne
      | some iid0 =>
        by_cases h1 : iid0 = ""
        · simp only [if_pos h1]
          exact ih seen l iid hl hid hne
        · by_cases h2 : iid0 ∈ seen
          · simp only [if_neg h1, if_pos h2]
            exact ih seen l iid hl hid hne
          · simp only [if_neg h1, if_neg h2]
            exact ih (iid0 :: seen) l iid hl hid hne

/-- Every kept lot carries a fresh, non-empty identifier and is the first
occurrence of that identifier on the page. -/
theorem dedupNew_first :
    ∀ (lots : List LotRec) (seen : List String) (lot : LotRec),
      lot ∈ (dedupNew seen lots).1 →
      ∃ iid pre post, getItemId lot = some iid ∧ iid ≠ "" ∧ iid ∉ seen
        ∧ lots = pre ++ lot :: post
        ∧ ∀ l ∈ pre, getItemId l ≠ some iid := by
  intro lots
  induction lots with
  | nil => intro seen lot h; simp [dedupNew] at h
  | cons l0 rest ih =>
    intro seen lot h
    unfold dedupNew at h
    cases hid0 : getItemId l0 with
    | none =>
      rw [hid0] at h
      dsimp only at h
      obtain ⟨iid, pre, post, h1, h2, h3, h4, h5⟩ := ih seen lot h
      refine ⟨iid, l0 :: pre, post, h1, h2, h3, by simp [h4], ?_⟩
      intro l hl
      rcases List.mem_cons.mp hl with hl | hl
      · subst hl
        simp [hid0]
      · exact h5 l hl
    | some iid0 =>
      rw [hid0] at h
      dsimp only at h
      by_cases hb1 : iid0 = ""
      · rw [if_pos hb1] at h
        obtain ⟨iid, pre, post, h1, h2, h3, h4, h5⟩ := ih seen lot h
        refine ⟨iid, l0 :: pre, post, h1, h2, h3, by simp [h4], ?_⟩
        intro l hl
        rcases List.mem_cons.mp hl with hl | hl
        · subst hl
          rw [hid0]
          intro hc
          have hq : iid0 = iid := by simpa using hc
          exact h2 (hq ▸ hb1)
        · exact h5 l hl
      · rw [if_neg hb1] at h
        by_cases hb2 : iid0 ∈ seen
        · rw [if_pos hb2] at h
          obtain ⟨iid, pre, post, h1, h2, h3, h4, h5⟩ := ih seen lot h
          refine ⟨iid, l0 :: pre, post, h1, h2, h3, by simp [h4], ?_⟩
          intro l hl
          rcases List.mem_cons.mp hl with hl | hl
          · subst hl
            rw [hid0]
            intro hc
            have : iid0 = iid := by simpa using hc
            exact h3 (this ▸ hb2)
          · exact h5 l hl
        · rw [if_neg hb2] at h
          rcases List.mem_cons.mp h with h | h
          · subst h
            exact ⟨iid0, [], rest, hid0, hb1, hb2, rfl, by simp⟩
          · obtain ⟨iid, pre, post, h1, h2, h3, h4, h5⟩ :=
              ih (iid0 :: seen) lot h
            have hne : iid ≠ iid0 := by
              intro hc
              exact h3 (hc ▸ List.mem_cons_self _ _)
            refine ⟨iid, l0 :: pre, post, h1, h2,
              fun hc => h3 (List.mem_cons_of_mem _ hc), by simp [h4], ?_⟩
            intro l hl
            rcases List.mem_cons.mp hl with hl | hl
            · subst hl
              rw [hid0]
              intro hc
              exact hne (by simpa using hc.symm)
            · exact h5 l hl

/-- Kept lots have pairwise distinct identifiers. -/
theorem dedupNew_pairwise :
    ∀ (lots : List LotRec) (seen : List String),
      List.Pairwise (fun a b => getItemId a ≠ getItemId b)
        (dedupNew seen lots).1 := by
  intro lots
  induction lots with
  | nil => intro seen; simp [dedupNew]
  | cons l0 rest ih =>
    intro seen
    unfold dedupNew
    cases hid0 : getItemId l0 with
    | none => exact ih seen
    | some iid0 =>
      dsimp only
      by_cases hb1 : iid0 = ""
      · rw [if_pos hb1]
        exact ih seen
      · rw [if_neg hb1]
        by_cases hb2 : iid0 ∈ seen
        · rw [if_pos hb2]
          exact ih seen
        · rw [if_neg hb2]
          refine List.Pairwise.cons ?_ (ih (iid0 :: seen))
          intro b hb
          obtain ⟨iidb, pre, post, hb1b, hb2b, hb3b, hb4b, hb5b⟩ :=
            dedupNew_first rest (iid0 :: seen) b hb
          rw [hid0, hb1b]
          intro hc
          have : iid0 = iidb := by simpa using hc
          exact hb3b (this ▸ List.mem_cons_self _ _)

end Hibid

namespace Hibid

/-! ## Emission lemmas for deduplication claims -/

theorem emitSpec_mem (limit : Option Nat) :
    ∀ (lots : List LotRec) (t : Nat) (p : String × LotRec),
      p ∈ emitSpec limit t lots →
      ∃ lot ∈ lots, getItemId lot = some p.1 ∧ p.2 = enrichLotData lot := by
  intro lots
  induction lots with
  | nil => intro t p hp; simp [emitSpec] at hp
  | cons lot rest ih =>
    intro t p hp
    unfold emitSpec at hp
    by_cases hg : limitReached limit t = true
    · rw [if_pos hg] at hp
      simp at hp
    · rw [if_neg hg] at hp
      cases hid : getItemId lot with
      | none =>
        rw [hid] at hp
        dsimp only at hp
        obtain ⟨l, hl, h1, h2⟩ := ih t p hp
        exact ⟨l, List.mem_cons_of_mem _ hl, h1, h2⟩
      | some iid =>
        rw [hid] at hp
        dsimp only at hp
        by_cases hb : iid = ""
        · rw [if_pos hb] at hp
          obtain ⟨l, hl, h1, h2⟩ := ih t p hp
          exact ⟨l, List.mem_cons_of_mem _ hl, h1, h2⟩
        · rw [if_neg hb] at hp
          rcases List.mem_cons.mp hp with hp | hp
          · subst hp
            exact ⟨lot, List.mem_cons_self _ _, hid, rfl⟩
          · obtain ⟨l, hl, h1, h2⟩ := ih (t + 1) p hp
            exact ⟨l, List.mem_cons_of_mem _ hl, h1, h2⟩

theorem emitSpec_nodup (limit : Option Nat) :
    ∀ (lots : List LotRec) (t : Nat),
      List.Pairwise (fun a b => getItemId a ≠ getItemId b) lots →
      ((emitSpec limit t lots).map Prod.fst).Nodup := by
  intro lots
  induction lots with
  | nil => intro t _; simp [emitSpec]
  | cons lot rest ih =>
    intro t hpw
    unfold emitSpec
    by_cases hg : limitReached limit t = true
    · rw [if_pos hg]; simp
    · rw [if_neg hg]
      cases hid : getItemId lot with
      | none => exact ih t hpw.of_cons
      | some iid =>
        dsimp only
        by_cases hb : iid = ""
        · rw [if_pos hb]
          exact ih t hpw.of_cons
        · rw [if_neg hb]
          refine List.Nodup.cons ?_ (ih (t + 1) hpw.of_cons)
          intro hmem
          simp only [List.mem_map] at hmem
          obtain ⟨p, hp, hp1⟩ := hmem
          obtain ⟨l, hl, h1, h2⟩ := emitSpec_mem limit rest (t + 1) p hp
          have hne := (List.pairwise_cons.mp hpw).1 l hl
          rw [hid, h1, hp1] at hne
          exact hne rfl

end Hibid

namespace Hibid

/-! ## Error accounting -/


theorem emitLots_errors_of_ids (limit : Option Nat) :
    ∀ (lots : List LotRec) (st : CatState),
      (∀ l ∈ lots, ∃ iid, getItemId l = some iid ∧ iid ≠ "") →
      (emitLots limit st lots).1.errors = st.errors := by
  intro lots
  induction lots with
  | nil => intro st _; simp [emitLots]
  | cons lot rest ih =>
    intro st hids
    obtain ⟨iid, hid, hne⟩ := hids lot (List.mem_cons_self _ _)
    unfold emitLots
    by_cases hg : limitReached limit st.total = true
    · simp [hg]
    · simp only [hg, Bool.false_eq_true, if_false]
      rw [hid]
      dsimp only
      rw [if_neg hne]
      exact ih _ (fun l hl => hids l (List.mem_cons_of_mem _ hl))

theorem processCachePage_errors (limit : Option Nat) (st : CatState)
    (cache : List (String × JVal)) :
    (processCachePage limit st cache).1.errors = st.errors := by
  unfold processCachePage
  dsimp only
  split
  · rfl
  · have hids : ∀ l ∈ (dedupNew st.seen (extractLotsFromApollo cache)).1,
        ∃ iid, getItemId l = some iid ∧ iid ≠ "" := by
      intro l hl
      obtain ⟨iid, pre, post, h1, h2, _, _, _⟩ :=
        dedupNew_first (extractLotsFromApollo cache) st.seen l hl
      exact ⟨iid, h1, h2⟩
    have he := emitLots_errors_of_ids limit
      (dedupNew st.seen (extractLotsFromApollo cache)).1
      { st with
        pagesScraped := st.pagesScraped + 1
        processedLots := st.processedLots ++ extractLotsFromApollo cache
        seen := (dedupNew st.seen (extractLotsFromApollo cache)).2 } hids
    split
    · exact he
    · split
      · exact he
      · exact he

theorem processPage_errors (limit : Option Nat) (st : CatState)
    (p : FetchOutcome) :
    (processPage limit st p).1.errors = st.errors + pageErr p := by
  cases p with
  | fail => rfl
  | page h =>
    cases h with
    | emptyDoc => simp [processPage, htmlTruthy, pageErr, extractApolloState]
    | noStateScript =>
      simp [processPage, htmlTruthy, pageErr, extractApolloState]
    | malformedJson =>
      simp [processPage, htmlTruthy, pageErr, extractApolloState]
    | stateJson v =>
      cases v with
      | obj fields =>
        simp [processPage, htmlTruthy, pageErr, extractApolloState]
        split
        · rfl
        · split
          · simp [processCachePage_errors]
          · rfl
      | null =>
        simp [processPage, htmlTruthy, pageErr, extractApolloState, pyTruthy]
      | bool b =>
        simp [processPage, htmlTruthy, pageErr, extractApolloState, pyTruthy]
      | num n =>
        simp [processPage, htmlTruthy, pageErr, extractApolloState, pyTruthy]
      | str s =>
        simp [processPage, htmlTruthy, pageErr, extractApolloState, pyTruthy]
      | arr xs =>
        simp [processPage, htmlTruthy, pageErr, extractApolloState, pyTruthy]

theorem scrapeCatAux_errors (limit : Option Nat) :
    ∀ (pages : List FetchOutcome) (st : CatState),
      (scrapeCatAux limit st pages).errors ≤ st.errors + pagesErr pages := by
  intro pages
  induction pages with
  | nil => intro st; simp [scrapeCatAux]
  | cons p rest ih =>
    intro st
    unfold scrapeCatAux
    split
    · simp
    · have hp := processPage_errors limit st p
      have hsum : pagesErr (p :: rest) = pageErr p + pagesErr rest := by
        simp [pagesErr]
      split
      next st2 hmk =>
        have h2 : st2.errors = st.errors + pageErr p := by
          rw [← hp, hmk]
        calc (scrapeCatAux limit st2 rest).errors
            ≤ st2.errors + pagesErr rest := ih st2
          _ = st.errors + pageErr p + pagesErr rest := by rw [h2]
          _ = st.errors + pagesErr (p :: rest) := by rw [hsum]; omega
      next st2 hmk =>
        have h2 : st2.errors = st.errors + pageErr p := by
          rw [← hp, hmk]
        rw [h2, hsum]
        omega

end Hibid

namespace Hibid

/-! ## The deduplication invariant of a category session -/


theorem catInvP_extend (limit : Option Nat) (t : Nat)
    (emitted : List (String × LotRec)) (seen : List String)
    (processed lots : List LotRec)
    (h : CatInvP emitted seen processed) :
    CatInvP (emitted ++ emitSpec limit t (dedupNew seen lots).1)
      (dedupNew seen lots).2 (processed ++ lots) := by
  obtain ⟨hnd, hsub, hproc, hfirst⟩ := h
  have addMem : ∀ p ∈ emitSpec limit t (dedupNew seen lots).1,
      ∃ lot, lot ∈ (dedupNew seen lots).1 ∧ getItemId lot = some p.1
        ∧ p.2 = enrichLotData lot :=
    fun p hp => emitSpec_mem limit _ t p hp
  refine ⟨?_, ?_, ?_, ?_⟩
  · rw [List.map_append]
    refine List.Nodup.append hnd
      (emitSpec_nodup limit _ t (dedupNew_pairwise lots seen)) ?_
    intro a ha hb
    have haSeen : a ∈ seen := hsub a ha
    simp only [List.mem_map] at hb
    obtain ⟨p, hp, hp1⟩ := hb
    obtain ⟨lot, hlot, hid, _⟩ := addMem p hp
    obtain ⟨iid, pre, post, h1, h2, h3, h4, h5⟩ :=
      dedupNew_first lots seen lot hlot
    rw [h1] at hid
    have : iid = p.1 := by simpa using hid
    exact h3 (by rw [this, hp1]; exact haSeen)
  · intro iid hiid
    rw [List.map_append] at hiid
    rcases List.mem_append.mp hiid with hiid | hiid
    · exact dedupNew_seen_mono lots seen iid (hsub iid hiid)
    · simp only [List.mem_map] at hiid
      obtain ⟨p, hp, hp1⟩ := hiid
      obtain ⟨lot, hlot, hid, _⟩ := addMem p hp
      obtain ⟨iid0, pre, post, h1, h2, h3, h4, h5⟩ :=
        dedupNew_first lots seen lot hlot
      have hmem : lot ∈ lots := by
        rw [h4]
        exact List.mem_append.mpr (Or.inr (List.mem_cons_self _ _))
      rw [h1] at hid
      have he : iid0 = p.1 := by simpa using hid
      rw [← hp1, ← he]
      exact dedupNew_covers lots seen lot iid0 hmem h1 h2
  · intro l hl iid hid hne
    rcases List.mem_append.mp hl with hl | hl
    · exact dedupNew_seen_mono lots seen iid (hproc l hl iid hid hne)
    · exact dedupNew_covers lots seen l iid hl hid hne
  · intro p hp
    rcases List.mem_append.mp hp with hp | hp
    · obtain ⟨pre, lot, post, h1, h2, h3, h4⟩ := hfirst p hp
      exact ⟨pre, lot, post ++ lots, by rw [h1]; simp, h2, h3, h4⟩
    · obtain ⟨lot, hlot, hid, hrec⟩ := addMem p hp
      obtain ⟨iid0, pre, post, h1, h2, h3, h4, h5⟩ :=
        dedupNew_first lots seen lot hlot
      rw [h1] at hid
      have he : iid0 = p.1 := by simpa using hid
      subst he
      refine ⟨processed ++ pre, lot, post, by rw [h4]; simp, h1, hrec, ?_⟩
      intro l hl hc
      rcases List.mem_append.mp hl with hl | hl
      · exact h3 (hproc l hl p.1 hc h2)
      · exact h5 l hl hc

end Hibid

namespace Hibid

theorem processCachePage_inv (limit : Option Nat) (st : CatState)
    (cache : List (String × JVal)) (h : CatInv st) :
    CatInv (processCachePage limit st cache).1 := by
  have hx := catInvP_extend limit st.total st.emitted st.seen
    st.processedLots (extractLotsFromApollo cache) h
  unfold processCachePage
  dsimp only
  split
  next hempty =>
    have hnil : (dedupNew st.seen (extractLotsFromApollo cache)).1 = [] := by
      simpa using hempty
    rw [hnil] at hx
    simp only [emitSpec, List.append_nil] at hx
    exact hx
  next hne =>
    split
    next =>
      unfold CatInv
      rw [emitLots_emitted, emitLots_seen, emitLots_processedLots]
      exact hx
    next =>
      split
      next =>
        unfold CatInv
        rw [emitLots_emitted, emitLots_seen, emitLots_processedLots]
        exact hx
      next =>
        unfold CatInv
        dsimp only
        rw [emitLots_emitted, emitLots_seen, emitLots_processedLots]
        exact hx

theorem processPage_inv (limit : Option Nat) (st : CatState)
    (p : FetchOutcome) (h : CatInv st) :
    CatInv (processPage limit st p).1 := by
  cases p with
  | fail => exact h
  | page hh =>
    cases hh with
    | emptyDoc => exact h
    | noStateScript => exact h
    | malformedJson => exact h
    | stateJson v =>
      cases v with
      | obj fields =>
        simp only [processPage, htmlTruthy, extractApolloState]
        cases hw : (dget fields "apollo.state").getD (JVal.obj []) with
        | obj apolloState =>
          by_cases hp : pyTruthy (JVal.obj apolloState) = false
          · rw [if_pos hp]
            exact h
          · rw [if_neg hp]
            exact processCachePage_inv limit _ _ h
        | null =>
          by_cases hp : pyTruthy JVal.null = false
          · rw [if_pos hp]
            exact h
          · rw [if_neg hp]
            exact h
        | bool b =>
          by_cases hp : pyTruthy (JVal.bool b) = false
          · rw [if_pos hp]
            exact h
          · rw [if_neg hp]
            exact h
        | num n =>
          by_cases hp : pyTruthy (JVal.num n) = false
          · rw [if_pos hp]
            exact h
          · rw [if_neg hp]
            exact h
        | str s =>
          by_cases hp : pyTruthy (JVal.str s) = false
          · rw [if_pos hp]
            exact h
          · rw [if_neg hp]
            exact h
        | arr xs =>
          by_cases hp : pyTruthy (JVal.arr xs) = false
          · rw [if_pos hp]
            exact h
          · rw [if_neg hp]
            exact h
      | null => exact h
      | bool b =>
        simp only [processPage, htmlTruthy, extractApolloState, pyTruthy]
        split
        · exact h
        · exact h
      | num n =>
        simp only [processPage, htmlTruthy, extractApolloState, pyTruthy]
        split
        · exact h
        · exact h
      | str s =>
        simp only [processPage, htmlTruthy, extractApolloState, pyTruthy]
        split
        · exact h
        · exact h
      | arr xs =>
        simp only [processPage, htmlTruthy, extractApolloState, pyTruthy]
        split
        · exact h
        · exact h

theorem scrapeCatAux_inv (limit : Option Nat) :
    ∀ (pages : List FetchOutcome) (st : CatState),
      CatInv st → CatInv (scrapeCatAux limit st pages) := by
  intro pages
  induction pages with
  | nil => intro st h; exact h
  | cons p rest ih =>
    intro st h
    unfold scrapeCatAux
    split
    · exact h
    · split
      next st2 hmk =>
        refine ih st2 ?_
        have := processPage_inv limit st p h
        rw [hmk] at this
        exact this
      next st2 hmk =>
        have := processPage_inv limit st p h
        rw [hmk] at this
        exact this

/-- C7: across one category session, emitted identifiers are pairwise
distinct; an emitted pair is always the enrichment of the *first* processed
lot bearing its identifier (later lots with the same identifier are filtered
out, never emitted); and the error counter only ever reflects page-level
failures — duplicates are dropped silently. -/
theorem scrapeCategory_emits_first_occurrence_only (limit : Option Nat)
    (pages : List FetchOutcome) :
    (((scrapeCategory limit pages).emitted.map Prod.fst).Nodup)
    ∧ (∀ p ∈ (scrapeCategory limit pages).emitted,
        ∃ pre lot post,
          (scrapeCategory limit pages).processedLots = pre ++ lot :: post
          ∧ getItemId lot = some p.1 ∧ p.2 = enrichLotData lot
          ∧ ∀ l ∈ pre, getItemId l ≠ some p.1)
    ∧ (scrapeCategory limit pages).errors ≤ pagesErr pages := by
  have hinit : CatInv CatState.init := by
    refine ⟨?_, ?_, ?_, ?_⟩ <;> simp [CatState.init]
  have hinv := scrapeCatAux_inv limit pages CatState.init hinit
  obtain ⟨h1, _, _, h4⟩ := hinv
  have herr := scrapeCatAux_errors limit pages CatState.init
  exact ⟨h1, h4, by simpa [CatState.init] using herr⟩


theorem scrapeCategory_emits_first_occurrence_only_witness :
    (((scrapeCategory none pagesC7).emitted.map Prod.fst).Nodup)
    ∧ (∃ pre lot post,
        (scrapeCategory none pagesC7).processedLots = pre ++ lot :: post
        ∧ getItemId lot = some "1"
        ∧ [("__typename", JVal.str "Lot"), ("id", JVal.str "1")]
            = enrichLotData lot
        ∧ ∀ l ∈ pre, getItemId l ≠ some "1")
    ∧ (scrapeCategory none pagesC7).errors ≤ pagesErr pagesC7 :=
  ⟨(scrapeCategory_emits_first_occurrence_only none pagesC7).1,
   (scrapeCategory_emits_first_occurrence_only none pagesC7).2.1
      ("1", [("__typename", JVal.str "Lot"), ("id", JVal.str "1")])
      (by exact List.mem_singleton_self _),
   (scrapeCategory_emits_first_occurrence_only none pagesC7).2.2⟩

end Hibid

namespace Hibid

/-! ## C2: id-less lots -/

theorem processCachePage_emitted (limit : Option Nat) (st : CatState)
    (cache : List (String × JVal)) :
    ∃ adds, (processCachePage limit st cache).1.emitted = st.emitted ++ adds
      ∧ ∀ q ∈ adds, ∃ lot, getItemId lot = some q.1
          ∧ q.2 = enrichLotData lot := by
  unfold processCachePage
  dsimp only
  split
  · exact ⟨[], by simp, by simp⟩
  · refine ⟨emitSpec limit st.total
      (dedupNew st.seen (extractLotsFromApollo cache)).1, ?_, ?_⟩
    · split
      next =>
        rw [emitLots_emitted]
      next =>
        split
        next => rw [emitLots_emitted]
        next =>
          dsimp only
          rw [emitLots_emitted]
    · intro q hq
      obtain ⟨lot, _, h1, h2⟩ :=
        emitSpec_mem limit _ st.total q hq
      exact ⟨lot, h1, h2⟩

theorem processPage_emitted (limit : Option Nat) (st : CatState)
    (p : FetchOutcome) :
    ∃ adds, (processPage limit st p).1.emitted = st.emitted ++ adds
      ∧ ∀ q ∈ adds, ∃ lot, getItemId lot = some q.1
          ∧ q.2 = enrichLotData lot := by
  cases p with
  | fail => exact ⟨[], by simp [processPage], by simp⟩
  | page hh =>
    cases hh with
    | emptyDoc => exact ⟨[], by simp [processPage, htmlTruthy], by simp⟩
    | noStateScript =>
      exact ⟨[], by simp [processPage, htmlTruthy, extractApolloState],
        by simp⟩
    | malformedJson =>
      exact ⟨[], by simp [processPage, htmlTruthy, extractApolloState],
        by simp⟩
    | stateJson v =>
      cases v with
      | obj fields =>
        simp only [processPage, htmlTruthy, extractApolloState]
        cases hw : (dget fields "apollo.state").getD (JVal.obj []) with
        | obj apolloState =>
          by_cases hp : pyTruthy (JVal.obj apolloState) = false
          · rw [if_pos hp]
            exact ⟨[], by simp, by simp⟩
          · rw [if_neg hp]
            exact processCachePage_emitted limit _ apolloState
        | null =>
          exact ⟨[], by simp [pyTruthy], by simp⟩
        | bool b =>
          by_cases hp : pyTruthy (JVal.bool b) = false
          · rw [if_pos hp]
            exact ⟨[], by simp, by simp⟩
          · rw [if_neg hp]
            exact ⟨[], by simp, by simp⟩
        | num n =>
          by_cases hp : pyTruthy (JVal.num n) = false
          · rw [if_pos hp]
            exact ⟨[], by simp, by simp⟩
          · rw [if_neg hp]
            exact ⟨[], by simp, by simp⟩
        | str s =>
          by_cases hp : pyTruthy (JVal.str s) = false
          · rw [if_pos hp]
            exact ⟨[], by simp, by simp⟩
          · rw [if_neg hp]
            exact ⟨[], by simp, by simp⟩
        | arr xs =>
          by_cases hp : pyTruthy (JVal.arr xs) = false
          · rw [if_pos hp]
            exact ⟨[], by simp, by simp⟩
          · rw [if_neg hp]
            exact ⟨[], by simp, by simp⟩
      | null =>
        exact ⟨[], by simp [processPage, htmlTruthy, extractApolloState],
          by simp⟩
      | bool b =>
        exact ⟨[], by simp [processPage, htmlTruthy, extractApolloState],
          by simp⟩
      | num n =>
        exact ⟨[], by simp [processPage, htmlTruthy, extractApolloState],
          by simp⟩
      | str s =>
        exact ⟨[], by simp [processPage, htmlTruthy, extractApolloState],
          by simp⟩
      | arr xs =>
        exact ⟨[], by simp [processPage, htmlTruthy, extractApolloState],
          by simp⟩


/-- C2 counterexample: a page containing a Lot from which no identifier can
be derived (`Lot:9`, no `id`/`itemId`/`eventItemId` and no usable fallback)
is processed with the error counter left at zero — the claimed per-lot
increment never happens; the id-less lot is dropped silently and only the
identifier-bearing lot is emitted. -/
theorem idless_lot_no_error_increment_counterexample :
    (scrapeCategory none pagesC2).errors = 0
    ∧ (scrapeCategory none pagesC2).emitted.map Prod.fst = ["1"]
    ∧ ¬ (scrapeCategory none pagesC2).errors = 1 :=
  ⟨by rfl, by rfl, by decide⟩

/-- C2 amended: a Lot with no derivable identifier is never emitted — every
newly emitted pair carries a derivable identifier — but the error counter is
*not* incremented for it: after any loop iteration the error counter has
grown exactly by the page-level increment (fetch exhaustion or extraction
failure), independent of the lots on the page.  The id-less branch of the
emission loop is unreachable because the duplicate filter already removed
id-less lots. -/
theorem crawl_skips_idless_lots_silently (limit : Option Nat) (st : CatState)
    (p : FetchOutcome) :
    (processPage limit st p).1.errors = st.errors + pageErr p
    ∧ ∀ q ∈ (processPage limit st p).1.emitted,
        q ∈ st.emitted
        ∨ ∃ lot, getItemId lot = some q.1 ∧ q.2 = enrichLotData lot := by
  refine ⟨processPage_errors limit st p, ?_⟩
  obtain ⟨adds, he, hq⟩ := processPage_emitted limit st p
  intro q hmem
  rw [he] at hmem
  rcases List.mem_append.mp hmem with hm | hm
  · exact Or.inl hm
  · exact Or.inr (hq q hm)

theorem crawl_skips_idless_lots_silently_witness :
    (processPage none CatState.init (.page (.stateJson (.obj
        [("apollo.state", .obj
          [("Lot:9", .obj [("__typename", .str "Lot")]),
           ("Lot:1", .obj [("__typename", .str "Lot"),
              ("id", .str "1")])])]))) ).1.errors
      = 0 + pageErr (.page (.stateJson (.obj
        [("apollo.state", .obj
          [("Lot:9", .obj [("__typename", .str "Lot")]),
           ("Lot:1", .obj [("__typename", .str "Lot"),
              ("id", .str "1")])])])))
    ∧ (("1", [("__typename", JVal.str "Lot"), ("id", JVal.str "1")])
          ∈ ([] : List (String × LotRec))
        ∨ ∃ lot, getItemId lot = some "1"
            ∧ [("__typename", JVal.str "Lot"), ("id", JVal.str "1")]
                = enrichLotData lot) :=
  ⟨(crawl_skips_idless_lots_silently none CatState.init _).1,
   (crawl_skips_idless_lots_silently none CatState.init
      (.page (.stateJson (.obj [("apollo.state", .obj
        [("Lot:9", .obj [("__typename", .str "Lot")]),
         ("Lot:1", .obj [("__typename", .str "Lot"),
            ("id", .str "1")])])])))).2
      ("1", [("__typename", JVal.str "Lot"), ("id", JVal.str "1")])
      (by exact List.mem_singleton_self _)⟩

end Hibid

namespace Hibid

/-! ## C1: the test limit -/

theorem emitSpec_length_bound (L : Nat) :
    ∀ (lots : List LotRec) (t : Nat), t ≤ L →
      t + (emitSpec (some L) t lots).length ≤ L := by
  intro lots
  induction lots with
  | nil =>
    intro t ht
    simp [emitSpec]
    exact ht
  | cons lot rest ih =>
    intro t ht
    unfold emitSpec
    by_cases hg : limitReached (some L) t = true
    · rw [if_pos hg]
      simpa using ht
    · have htL : t < L := by
        simp [limitReached] at hg
        omega
      rw [if_neg hg]
      cases hid : getItemId lot with
      | none =>
        dsimp only
        exact ih t ht
      | some iid =>
        dsimp only
        by_cases hb : iid = ""
        · rw [if_pos hb]
          exact ih t ht
        · rw [if_neg hb]
          have h2 := ih (t + 1) (by omega)
          simp only [List.length_cons]
          omega

theorem processCachePage_counts (limit : Option Nat) (st : CatState)
    (cache : List (String × JVal)) :
    (processCachePage limit st cache).1.itemsFound + st.total
      = (processCachePage limit st cache).1.total + st.itemsFound
    ∧ (processCachePage limit st cache).1.emitted.length + st.total
      = (processCachePage limit st cache).1.total + st.emitted.length
    ∧ ∀ L, limit = some L → st.total ≤ L →
        (processCachePage limit st cache).1.total ≤ L := by
  unfold processCachePage
  dsimp only
  split
  next =>
    refine ⟨by dsimp only; omega, by dsimp only; omega, ?_⟩
    intro L hL hle
    dsimp only
    exact hle
  next =>
    have hkey : ∀ st2 : CatState, st2.total = st.total →
        st2.itemsFound = st.itemsFound → st2.emitted = st.emitted →
        (emitLots limit st2
            (dedupNew st.seen (extractLotsFromApollo cache)).1).1.itemsFound
              + st.total
          = (emitLots limit st2
              (dedupNew st.seen (extractLotsFromApollo cache)).1).1.total
              + st.itemsFound
        ∧ (emitLots limit st2
            (dedupNew st.seen (extractLotsFromApollo cache)).1).1.emitted.length
              + st.total
          = (emitLots limit st2
              (dedupNew st.seen (extractLotsFromApollo cache)).1).1.total
              + st.emitted.length
        ∧ ∀ L, limit = some L → st.total ≤ L →
            (emitLots limit st2
              (dedupNew st.seen (extractLotsFromApollo cache)).1).1.total ≤ L := by
      intro st2 h1 h2 h3
      refine ⟨?_, ?_, ?_⟩
      · rw [emitLots_itemsFound, emitLots_total, h1, h2]
        omega
      · rw [emitLots_emitted, emitLots_total, h1, h3]
        simp only [List.length_append]
        omega
      · intro L hL hle
        subst hL
        rw [emitLots_total, h1]
        exact emitSpec_length_bound L _ st.total hle
    split
    next => exact hkey _ rfl rfl rfl
    next =>
      split
      next => exact hkey _ rfl rfl rfl
      next =>
        dsimp only
        exact hkey _ rfl rfl rfl

theorem processPage_counts (limit : Option Nat) (st : CatState)
    (p : FetchOutcome) :
    (processPage limit st p).1.itemsFound + st.total
      = (processPage limit st p).1.total + st.itemsFound
    ∧ (processPage limit st p).1.emitted.length + st.total
      = (processPage limit st p).1.total + st.emitted.length
    ∧ ∀ L, limit = some L → st.total ≤ L →
        (processPage limit st p).1.total ≤ L := by
  have triv : ∀ q : CatState × Bool, q.1.total = st.total →
      q.1.itemsFound = st.itemsFound → q.1.emitted = st.emitted →
      (q.1.itemsFound + st.total = q.1.total + st.itemsFound
       ∧ q.1.emitted.length + st.total = q.1.total + st.emitted.length
       ∧ ∀ L, limit = some L → st.total ≤ L → q.1.total ≤ L) := by
    intro q h1 h2 h3
    refine ⟨by rw [h1, h2]; omega, by rw [h1, h3]; omega, ?_⟩
    intro L hL hle
    rw [h1]
    exact hle
  cases p with
  | fail => exact triv _ rfl rfl rfl
  | page hh =>
    cases hh with
    | emptyDoc => exact triv _ rfl rfl rfl
    | noStateScript => exact triv _ rfl rfl rfl
    | malformedJson => exact triv _ rfl rfl rfl
    | stateJson v =>
      cases v with
      | obj fields =>
        simp only [processPage, htmlTruthy, extractApolloState]
        cases hw : (dget fields "apollo.state").getD (JVal.obj []) with
        | obj apolloState =>
          by_cases hp : pyTruthy (JVal.obj apolloState) = false
          · rw [if_pos hp]
            exact triv _ rfl rfl rfl
          · rw [if_neg hp]
            exact processCachePage_counts limit _ apolloState
        | null => exact triv _ rfl rfl rfl
        | bool b =>
          by_cases hp : pyTruthy (JVal.bool b) = false
          · rw [if_pos hp]
            exact triv _ rfl rfl rfl
          · rw [if_neg hp]
            exact triv _ rfl rfl rfl
        | num n =>
          by_cases hp : pyTruthy (JVal.num n) = false
          · rw [if_pos hp]
            exact triv _ rfl rfl rfl
          · rw [if_neg hp]
            exact triv _ rfl rfl rfl
        | str s =>
          by_cases hp : pyTruthy (JVal.str s) = false
          · rw [if_pos hp]
            exact triv _ rfl rfl rfl
          · rw [if_neg hp]
            exact triv _ rfl rfl rfl
        | arr xs =>
          by_cases hp : pyTruthy (JVal.arr xs) = false
          · rw [if_pos hp]
            exact triv _ rfl rfl rfl
          · rw [if_neg hp]
            exact triv _ rfl rfl rfl
      | null => exact triv _ rfl rfl rfl
      | bool b => exact triv _ rfl rfl rfl
      | num n => exact triv _ rfl rfl rfl
      | str s => exact triv _ rfl rfl rfl
      | arr xs => exact triv _ rfl rfl rfl

theorem scrapeCatAux_counts (limit : Option Nat) :
    ∀ (pages : List FetchOutcome) (st : CatState),
      (scrapeCatAux limit st pages).itemsFound + st.total
        = (scrapeCatAux limit st pages).total + st.itemsFound
      ∧ (scrapeCatAux limit st pages).emitted.length + st.total
        = (scrapeCatAux limit st pages).total + st.emitted.length
      ∧ ∀ L, limit = some L → st.total ≤ L →
          (scrapeCatAux limit st pages).total ≤ L := by
  intro pages
  induction pages with
  | nil =>
    intro st
    unfold scrapeCatAux
    exact ⟨by omega, by omega, fun L hL hle => hle⟩
  | cons p rest ih =>
    intro st
    unfold scrapeCatAux
    split
    · exact ⟨by omega, by omega, fun L hL hle => hle⟩
    · have hp := processPage_counts limit st p
      split
      next st2 hmk =>
        rw [hmk] at hp
        dsimp only at hp
        have h2 := ih st2
        refine ⟨by omega, by omega, ?_⟩
        intro L hL hle
        exact h2.2.2 L hL (hp.2.2 L hL hle)
      next st2 hmk =>
        rw [hmk] at hp
        dsimp only at hp
        exact hp

end Hibid

namespace Hibid

theorem scrapeAllAux_limit_bound (cfg : Config)
    (data : Nat → List FetchOutcome) (lastCat : Option String)
    (hm : cfg.testMode = true) :
    ∀ (cats : List (Option String)) (idx : Nat) (st : AllState),
      st.itemsFound < cfg.testLimit →
      st.emittedAll.length = st.itemsFound →
      (scrapeAllAux cfg data lastCat cats idx st).emittedAll.length
          = (scrapeAllAux cfg data lastCat cats idx st).itemsFound
      ∧ (scrapeAllAux cfg data lastCat cats idx st).itemsFound
          ≤ 2 * cfg.testLimit - 1 := by
  intro cats
  induction cats with
  | nil =>
    intro idx st h1 h2
    unfold scrapeAllAux
    exact ⟨h2, by omega⟩
  | cons c rest ih =>
    intro idx st h1 h2
    have hLim : (if cfg.testMode then some cfg.testLimit else none)
        = some cfg.testLimit := by simp [hm]
    obtain ⟨hc1, hc2, hc3⟩ := scrapeCatAux_counts
      (if cfg.testMode then some cfg.testLimit else none) (data idx)
      (catInit st)
    have hcle := hc3 cfg.testLimit hLim (by simp [catInit])
    simp only [catInit, List.length_nil] at hc1 hc2 hcle
    rw [hLim] at hc1 hc2 hcle
    simp only [scrapeAllAux, catInit]
    rw [hLim]
    split
    next =>
      refine ⟨?_, ?_⟩
      · dsimp only
        simp only [List.length_append, List.length_map]
        omega
      · dsimp only
        omega
    next =>
      split
      next =>
        refine ⟨?_, ?_⟩
        · dsimp only
          simp only [List.length_append, List.length_map]
          omega
        · dsimp only
          omega
      next hnb =>
        have hlt : (scrapeCatAux (some cfg.testLimit)
            ⟨[], 0, st.itemsFound, st.errors, st.pagesScraped, st.fetchCount,
              [], [], st.trace, st.crashed⟩
            (data idx)).itemsFound < cfg.testLimit := by
          by_contra hge
          exact hnb ⟨hm, by omega⟩
        split
        next =>
          refine ih (idx + 1) _ ?_ ?_
          · exact hlt
          · dsimp only
            simp only [List.length_append, List.length_map]
            omega
        next =>
          refine ih (idx + 1) _ ?_ ?_
          · exact hlt
          · dsimp only
            simp only [List.length_append, List.length_map]
            omega

end Hibid

namespace Hibid


/-- C1 counterexample: test mode with limit 2 and two configured categories.
The first category is exhausted after one lot, so the session continues into
the second category with a fresh per-category counter and emits two more
lots: three pairs in total, exceeding the limit. -/
theorem test_limit_can_be_exceeded_counterexample :
    (scrapeAll cfgC1 dataC1).emittedAll.length = 3
    ∧ ¬ ((scrapeAll cfgC1 dataC1).emittedAll.length ≤ cfgC1.testLimit) :=
  ⟨by rfl, by decide⟩

/-- C1 amended: in test mode with limit `L ≥ 1`, each single category yields
at most `L` pairs, and the session stops at the first category boundary where
the cumulative count reaches `L`; hence the session-wide total is at most
`2L - 1` (it equals `L` when every category has at least `L` lots available,
but can exceed `L` when an earlier category is exhausted below `L`). -/
theorem scrapeAll_test_limit_bound (cfg : Config)
    (data : Nat → List FetchOutcome)
    (hm : cfg.testMode = true) (hL : 1 ≤ cfg.testLimit) :
    (scrapeAll cfg data).emittedAll.length ≤ 2 * cfg.testLimit - 1
    ∧ ∀ pages, (scrapeCategory (some cfg.testLimit) pages).emitted.length
        ≤ cfg.testLimit := by
  constructor
  · have h := scrapeAllAux_limit_bound cfg data
      ((sessionCategories cfg).getLast?.getD none) hm
      (sessionCategories cfg) 0 AllState.init hL rfl
    have he : scrapeAll cfg data
        = scrapeAllAux cfg data ((sessionCategories cfg).getLast?.getD none)
            (sessionCategories cfg) 0 AllState.init := rfl
    rw [he]
    omega
  · intro pages
    obtain ⟨h1, h2, h3⟩ :=
      scrapeCatAux_counts (some cfg.testLimit) pages CatState.init
    have hle := h3 cfg.testLimit rfl (by simp [CatState.init])
    have e1 : CatState.init.total = 0 := rfl
    have e2 : CatState.init.emitted.length = 0 := rfl
    unfold scrapeCategory
    omega

theorem scrapeAll_test_limit_bound_witness :
    (scrapeAll cfgC1 dataC1).emittedAll.length ≤ 2 * cfgC1.testLimit - 1
    ∧ ∀ pages, (scrapeCategory (some cfgC1.testLimit) pages).emitted.length
        ≤ cfgC1.testLimit :=
  scrapeAll_test_limit_bound cfgC1 dataC1 (by rfl) (by decide)

end Hibid

namespace Hibid

/-! ## C9: delay placement -/

theorem processCachePage_trace (limit : Option Nat) (st : CatState)
    (cache : List (String × JVal)) :
    (processCachePage limit st cache).1.trace
      = st.trace ++ (if (processCachePage limit st cache).2 = true
          then [Ev.delay] else []) := by
  unfold processCachePage
  dsimp only
  split
  · simp
  · split
    next => simp [emitLots_trace]
    next =>
      split
      next => simp [emitLots_trace]
      next =>
        dsimp only
        simp [emitLots_trace]

theorem processPage_trace (limit : Option Nat) (st : CatState)
    (p : FetchOutcome) :
    (processPage limit st p).1.trace
      = (st.trace ++ [Ev.fetch])
          ++ (if (processPage limit st p).2 = true then [Ev.delay] else []) := by
  have triv : ∀ q : CatState × Bool, q.1.trace = st.trace ++ [Ev.fetch] →
      q.2 = false →
      q.1.trace = (st.trace ++ [Ev.fetch])
        ++ (if q.2 = true then [Ev.delay] else []) := by
    intro q h1 h2
    rw [h1, h2]
    simp
  cases p with
  | fail => exact triv _ rfl rfl
  | page hh =>
    cases hh with
    | emptyDoc => exact triv _ rfl rfl
    | noStateScript => exact triv _ rfl rfl
    | malformedJson => exact triv _ rfl rfl
    | stateJson v =>
      cases v with
      | obj fields =>
        simp only [processPage, htmlTruthy, extractApolloState]
        cases hw : (dget fields "apollo.state").getD (JVal.obj []) with
        | obj apolloState =>
          by_cases hp : pyTruthy (JVal.obj apolloState) = false
          · rw [if_pos hp]
            exact triv _ rfl rfl
          · rw [if_neg hp]
            have := processCachePage_trace limit
              { st with
                fetchCount := st.fetchCount + 1
                trace := st.trace ++ [Ev.fetch]
                errors := st.errors + 0 } apolloState
            simpa using this
        | null => exact triv _ rfl rfl
        | bool b =>
          by_cases hp : pyTruthy (JVal.bool b) = false
          · rw [if_pos hp]
            exact triv _ rfl rfl
          · rw [if_neg hp]
            exact triv _ rfl rfl
        | num n =>
          by_cases hp : pyTruthy (JVal.num n) = false
          · rw [if_pos hp]
            exact triv _ rfl rfl
          · rw [if_neg hp]
            exact triv _ rfl rfl
        | str s =>
          by_cases hp : pyTruthy (JVal.str s) = false
          · rw [if_pos hp]
            exact triv _ rfl rfl
          · rw [if_neg hp]
            exact triv _ rfl rfl
        | arr xs =>
          by_cases hp : pyTruthy (JVal.arr xs) = false
          · rw [if_pos hp]
            exact triv _ rfl rfl
          · rw [if_neg hp]
            exact triv _ rfl rfl
      | null => exact triv _ rfl rfl
      | bool b => exact triv _ rfl rfl
      | num n => exact triv _ rfl rfl
      | str s => exact triv _ rfl rfl
      | arr xs => exact triv _ rfl rfl

theorem scrapeCatAux_trace_chain (limit : Option Nat) :
    ∀ (pages : List FetchOutcome) (st : CatState),
      List.Chain' (fun a b => a ≠ b) st.trace →
      (st.trace = [] ∨ st.trace.getLast? = some Ev.delay) →
      List.Chain' (fun a b => a ≠ b) (scrapeCatAux limit st pages).trace := by
  intro pages
  induction pages with
  | nil => intro st h1 _; exact h1
  | cons p rest ih =>
    intro st h1 h2
    unfold scrapeCatAux
    split
    · exact h1
    · have htr := processPage_trace limit st p
      have hchain : List.Chain' (fun a b => a ≠ b)
          (st.trace ++ [Ev.fetch]) := by
        rw [List.chain'_append]
        refine ⟨h1, by simp, ?_⟩
        intro x hx y hy
        rcases h2 with h2 | h2
        · simp [h2] at hx
        · rw [h2] at hx
          simp at hx hy
          subst hx
          subst hy
          decide
      split
      next st2 hmk =>
        have hcont : (processPage limit st p).2 = true := by rw [hmk]
        have hfst : (processPage limit st p).1 = st2 := by rw [hmk]
        have h2t : st2.trace = (st.trace ++ [Ev.fetch]) ++ [Ev.delay] := by
          rw [← hfst, htr, hcont]
          simp
        refine ih st2 ?_ (Or.inr ?_)
        · rw [h2t, List.chain'_append]
          refine ⟨hchain, by simp, ?_⟩
          intro x hx y hy
          rw [List.getLast?_concat] at hx
          simp at hx hy
          subst hx
          subst hy
          decide
        · rw [h2t]
          exact List.getLast?_concat _
      next st2 hmk =>
        have hcont : (processPage limit st p).2 = false := by rw [hmk]
        have hfst : (processPage limit st p).1 = st2 := by rw [hmk]
        have h2t : st2.trace = st.trace ++ [Ev.fetch] := by
          rw [← hfst, htr, hcont]
          simp
        rw [h2t]
        exact hchain

end Hibid

namespace Hibid


/-- C9 counterexample: with the same category value configured twice, the
`category != categories[-1]` comparison is false already for the first
occurrence, so the page fetches of the two categories happen back to back with no
randomized delay between them. -/
theorem no_delay_between_duplicate_categories_counterexample :
    sessionCategories cfgC9 = [some "a", some "a"]
    ∧ (scrapeAll cfgC9 (fun _ => [.fail])).trace = [Ev.fetch, Ev.fetch]
    ∧ Ev.delay ∉ (scrapeAll cfgC9 (fun _ => [.fail])).trace :=
  ⟨by rfl, by rfl, by decide⟩

/-- C9 amended: within a category, consecutive trace events strictly
alternate between page fetches and randomized delays — exactly one delay
separates consecutive fetches; between categories, exactly one delay is
applied after a category unless that category compares equal (by value) to
the last configured category, in which case no inter-category delay occurs.
-/
theorem delay_schedule_amended :
    (∀ (limit : Option Nat) (pages : List FetchOutcome),
      List.Chain' (fun a b => a ≠ b) (scrapeCategory limit pages).trace)
    ∧ (∀ (cfg : Config) (data : Nat → List FetchOutcome)
        (lastCat c : Option String) (rest : List (Option String))
        (idx : Nat) (st st2 : AllState),
        st2 = (let limit : Option Nat :=
                if cfg.testMode then some cfg.testLimit else none
               let cs := scrapeCatAux limit (catInit st) (data idx)
               ⟨cs.itemsFound, cs.errors, cs.pagesScraped, cs.fetchCount,
                 st.emittedAll ++ cs.emitted.map (fun p => (p.1, p.2, c)),
                 cs.trace, cs.crashed⟩) →
        st2.crashed = false →
        ¬(cfg.testMode ∧ cfg.testLimit ≤ st2.itemsFound) →
        scrapeAllAux cfg data lastCat (c :: rest) idx st
          = scrapeAllAux cfg data lastCat rest (idx + 1)
              (if c = lastCat then st2
               else { st2 with trace := st2.trace ++ [Ev.delay] })) := by
  constructor
  · intro limit pages
    exact scrapeCatAux_trace_chain limit pages CatState.init
      (by simp [CatState.init]) (Or.inl rfl)
  · intro cfg data lastCat c rest idx st st2 hdef hcr hnb
    subst hdef
    simp only [scrapeAllAux]
    rw [if_neg]
    · rw [if_neg hnb]
      by_cases hcl : c = lastCat
      · rw [if_pos hcl, if_neg (by simpa using hcl)]
      · rw [if_neg hcl, if_pos (by simpa using hcl)]
    · simp only at hcr
      simp [hcr]

theorem delay_schedule_amended_witness :
    List.Chain' (fun a b => a ≠ b)
      (scrapeCategory none [FetchOutcome.fail]).trace
    ∧ scrapeAllAux cfgC9 (fun _ => [.fail]) (some "a")
          [some "a", some "a"] 0 AllState.init
        = scrapeAllAux cfgC9 (fun _ => [.fail]) (some "a") [some "a"] 1
            ⟨0, 1, 0, 1, [], [Ev.fetch], false⟩ :=
  ⟨delay_schedule_amended.1 none [FetchOutcome.fail],
   delay_schedule_amended.2 cfgC9 (fun _ => [.fail]) (some "a") (some "a")
      [some "a"] 0 AllState.init ⟨0, 1, 0, 1, [], [Ev.fetch], false⟩
      (by rfl) (by rfl) (by simp [cfgC9])⟩

end Hibid
